import Mathlib

/-!
Shallow embedding of the Chessforces game core: the chess rules module
(`isValidMove`, `isPathClear`, `makeMove`, `getValidMoves`), the session
store module (`createGame`, `getGame`, `updateGame`, `joinGame`) and the
HTTP route branches for join and move.

JavaScript runtime behaviour is made explicit:
* an out-of-range array read `a[i]` yields `undefined`, modelled by
  `Option.none` at the read level; indexing a property of `undefined`
  throws, so functions that can throw return `Option` with `none` for the
  thrown case;
* `null` and `undefined` squares are both falsy and are collapsed to the
  empty square `none : Piece`;
* the unbounded `while` loop of `isPathClear` is given explicit fuel
  (16 suffices for every call the validator can make: both endpoints are
  on the 8×8 grid and the walk is a straight line of at most 8 steps).
-/

namespace CF

/-- Piece kinds (`PieceType` in the chess module). -/
inductive PieceType
  | p | r | n | b | q | k
  deriving DecidableEq

/-- Piece colours (`Color` in the chess module). -/
inductive Color
  | w | b
  deriving DecidableEq

/-- A concrete piece: `{ type, color }`. -/
structure ChessPiece where
  type : PieceType
  color : Color
  deriving DecidableEq

/-- A square's occupant: a piece or empty (`null` / `undefined`). -/
abbrev Piece := Option ChessPiece

/-- `Board = Piece[][]`. -/
abbrev Board := List (List Piece)

/-- `Position = { row, col }`; JavaScript numbers from requests may be
negative, so coordinates are integers. -/
structure Position where
  row : Int
  col : Int
  deriving DecidableEq

/-- `initialBoard` from the chess module. -/
def initialBoard : Board :=
  [ [some ⟨.r, .b⟩, some ⟨.n, .b⟩, some ⟨.b, .b⟩, some ⟨.q, .b⟩, some ⟨.k, .b⟩, some ⟨.b, .b⟩, some ⟨.n, .b⟩, some ⟨.r, .b⟩],
    [some ⟨.p, .b⟩, some ⟨.p, .b⟩, some ⟨.p, .b⟩, some ⟨.p, .b⟩, some ⟨.p, .b⟩, some ⟨.p, .b⟩, some ⟨.p, .b⟩, some ⟨.p, .b⟩],
    [none, none, none, none, none, none, none, none],
    [none, none, none, none, none, none, none, none],
    [none, none, none, none, none, none, none, none],
    [none, none, none, none, none, none, none, none],
    [some ⟨.p, .w⟩, some ⟨.p, .w⟩, some ⟨.p, .w⟩, some ⟨.p, .w⟩, some ⟨.p, .w⟩, some ⟨.p, .w⟩, some ⟨.p, .w⟩, some ⟨.p, .w⟩],
    [some ⟨.r, .w⟩, some ⟨.n, .w⟩, some ⟨.b, .w⟩, some ⟨.q, .w⟩, some ⟨.k, .w⟩, some ⟨.b, .w⟩, some ⟨.n, .w⟩, some ⟨.r, .w⟩] ]

/-- The all-empty 8×8 board (used by the spec's empty-board properties). -/
def emptyBoard : Board :=
  List.replicate 8 (List.replicate 8 (none : Piece))

/-- JavaScript array read `xs[i]`: `none` is `undefined` (negative index or
index past the end). -/
def jsGet {α : Type} (xs : List α) (i : Int) : Option α :=
  if 0 ≤ i then xs.get? i.toNat else none

/-- JavaScript array element write `xs[i] = v`. Writes past the end of the
array (sparse extension) never happen on 8×8 boards with in-range indices
and are modelled as failure. -/
def jsSet {α : Type} (xs : List α) (i : Int) (v : α) : Option (List α) :=
  if 0 ≤ i ∧ i < (xs.length : Int) then some (xs.set i.toNat v) else none

/-- `board[row][col]`: `none` models the TypeError thrown when `board[row]`
is `undefined`; `some none` is an empty (or `undefined`, equally falsy)
square; `some (some pc)` a piece. -/
def squareRead (board : Board) (row col : Int) : Option Piece :=
  match jsGet board row with
  | none => none
  | some r =>
    match jsGet r col with
    | none => some none
    | some p => some p

/-- The loop body of `isPathClear`, with explicit fuel for the unbounded
`while`; `none` models either a thrown TypeError inside the loop or a walk
that does not reach `to` within the fuel (which cannot happen at the
validator's call sites). -/
def pathClearAux (board : Board) (toR toC rowStep colStep : Int) :
    Nat → Int → Int → Option Bool
  | 0, _, _ => none
  | fuel + 1, row, col =>
    if row = toR ∧ col = toC then some true
    else
      match squareRead board row col with
      | none => none
      | some (some _) => some false
      | some none =>
        pathClearAux board toR toC rowStep colStep fuel (row + rowStep) (col + colStep)

/-- `isPathClear` from the chess module. -/
def isPathClear (board : Board) (fromP toP : Position) : Option Bool :=
  let rowStep : Int := if fromP.row < toP.row then 1 else if toP.row < fromP.row then -1 else 0
  let colStep : Int := if fromP.col < toP.col then 1 else if toP.col < fromP.col then -1 else 0
  pathClearAux board toP.row toP.col rowStep colStep 16 (fromP.row + rowStep) (fromP.col + colStep)

/-- The tail of the pawn case of `isValidMove`: the diagonal-capture check
followed by the final `return false`. -/
def pawnDiag (target : Piece) (rowDiff colDiff direction : Int) : Option Bool :=
  if colDiff.natAbs = 1 ∧ rowDiff = direction ∧ target ≠ none then some true else some false

/-- `isValidMove` from the chess module. `none` models a thrown TypeError
(reading a property of `undefined`), `some b` a normal boolean return. -/
def isValidMove (board : Board) (fromP toP : Position) (turn : Color) : Option Bool :=
  match squareRead board fromP.row fromP.col with
  | none => none
  | some none => some false
  | some (some piece) =>
    if piece.color ≠ turn then some false
    else if toP.row < 0 ∨ 7 < toP.row ∨ toP.col < 0 ∨ 7 < toP.col then some false
    else
      match squareRead board toP.row toP.col with
      | none => none
      | some target =>
        if target.any fun t => t.color = piece.color then some false
        else
          let rowDiff := toP.row - fromP.row
          let colDiff := toP.col - fromP.col
          match piece.type with
          | PieceType.p =>
            let direction : Int := if piece.color = Color.w then -1 else 1
            let startRow : Int := if piece.color = Color.w then 6 else 1
            if colDiff = 0 ∧ target = none then
              if rowDiff = direction then some true
              else if fromP.row = startRow ∧ rowDiff = 2 * direction then
                match squareRead board (fromP.row + direction) fromP.col with
                | none => none
                | some none => some true
                | some (some _) => pawnDiag target rowDiff colDiff direction
              else pawnDiag target rowDiff colDiff direction
            else pawnDiag target rowDiff colDiff direction
          | PieceType.r =>
            if rowDiff = 0 ∨ colDiff = 0 then isPathClear board fromP toP else some false
          | PieceType.n =>
            if (rowDiff.natAbs = 2 ∧ colDiff.natAbs = 1) ∨ (rowDiff.natAbs = 1 ∧ colDiff.natAbs = 2)
            then some true else some false
          | PieceType.b =>
            if rowDiff.natAbs = colDiff.natAbs then isPathClear board fromP toP else some false
          | PieceType.q =>
            if rowDiff = 0 ∨ colDiff = 0 ∨ rowDiff.natAbs = colDiff.natAbs
            then isPathClear board fromP toP else some false
          | PieceType.k =>
            if rowDiff.natAbs ≤ 1 ∧ colDiff.natAbs ≤ 1 then some true else some false

/-- `makeMove` from the chess module. The `.map(row => [...row])` copy is
the identity under value semantics; the two element assignments are the
`jsSet` writes, sequenced as in the source (destination write, then the
source square is nulled out). -/
def makeMove (board : Board) (fromP toP : Position) : Option Board := do
  let piece ← squareRead board fromP.row fromP.col
  let toRow ← jsGet board toP.row
  let toRow2 ← jsSet toRow toP.col piece
  let board1 ← jsSet board toP.row toRow2
  let fromRow ← jsGet board1 fromP.row
  let fromRow2 ← jsSet fromRow fromP.col (none : Piece)
  jsSet board1 fromP.row fromRow2

/-- `getValidMoves` from the chess module: row-major enumeration of the 64
squares, keeping those `isValidMove` accepts; a thrown TypeError inside the
loop aborts the whole call (`none`). -/
def getValidMoves (board : Board) (fromP : Position) (turn : Color) :
    Option (List Position) :=
  (List.range 8).foldlM
    (fun acc row =>
      (List.range 8).foldlM
        (fun acc2 col =>
          match isValidMove board fromP ⟨(row : Int), (col : Int)⟩ turn with
          | none => none
          | some true => some (acc2 ++ [⟨(row : Int), (col : Int)⟩])
          | some false => some acc2)
        acc)
    ([] : List Position)

/-- An 8×8 board (the Board data-model invariant of the spec). -/
def wfBoard (b : Board) : Prop :=
  b.length = 8 ∧ ∀ r ∈ b, r.length = 8

instance (b : Board) : Decidable (wfBoard b) :=
  inferInstanceAs (Decidable (_ ∧ _))

/-- A square of the 8×8 grid, coordinates in [0,7]. -/
def inRange (p : Position) : Prop :=
  0 ≤ p.row ∧ p.row ≤ 7 ∧ 0 ≤ p.col ∧ p.col ≤ 7

instance (p : Position) : Decidable (inRange p) :=
  inferInstanceAs (Decidable (_ ∧ _))

/-! ## Session manager (src/lib/db.ts) and route handler -/

/-- `GameState.status`. -/
inductive Status
  | waiting | active | finished
  deriving DecidableEq

/-- The non-null values of `GameState.winner` (`Color | 'draw'`). -/
inductive GameResult
  | winner (c : Color)
  | draw
  deriving DecidableEq

/-- The `players` / `playerNames` records (`{ white, black }`, each a
string or `null`). -/
structure PlayerSlots where
  white : Option String
  black : Option String
  deriving DecidableEq

/-- `GameState` from db.ts.  `lastMove` is a `Date.now()` timestamp; the
embedding passes the clock in as an explicit `Nat` argument. -/
structure GameState where
  id : String
  board : Board
  turn : Color
  players : PlayerSlots
  playerNames : PlayerSlots
  status : Status
  winner : Option GameResult
  lastMove : Nat
  deriving DecidableEq

/-- The key-value store (Redis or the in-memory `Map`), restricted to the
game namespace: session id → stored game. -/
def Store := String → Option GameState

/-- The store with no sessions. -/
def Store.emp : Store := fun _ => none

/-- Atomic per-key upsert (`redis.set` / `memoryGames.set`). -/
def Store.set (s : Store) (k : String) (g : GameState) : Store :=
  fun k' => if k' = k then some g else s k'

/-- JavaScript string falsiness for a `string | null` slot: `null` and the
empty string are both falsy (`if (!game.players.white)`). -/
def strFalsy (x : Option String) : Prop :=
  x = none ∨ x = some ""

instance (x : Option String) : Decidable (strFalsy x) :=
  inferInstanceAs (Decidable (_ ∨ _))

/-- A `Partial<GameState>`: the fields an `updateGame` call may spread over
the stored game.  A missing field is `none`. -/
structure GameUpdate where
  id : Option String := none
  board : Option Board := none
  turn : Option Color := none
  players : Option PlayerSlots := none
  playerNames : Option PlayerSlots := none
  status : Option Status := none
  winner : Option (Option GameResult) := none
  lastMove : Option Nat := none

/-- The spread `{ ...game, ...updates, lastMove: Date.now() }`: update
fields win over the loaded game's, and `lastMove` is always the fresh
timestamp (it is spread last). -/
def applyUpdate (g : GameState) (u : GameUpdate) (now : Nat) : GameState :=
  { id := u.id.getD g.id
    board := u.board.getD g.board
    turn := u.turn.getD g.turn
    players := u.players.getD g.players
    playerNames := u.playerNames.getD g.playerNames
    status := u.status.getD g.status
    winner := u.winner.getD g.winner
    lastMove := now }

/-- Spreading a whole `GameState` as a `Partial<GameState>` (used by
`joinGame`, which passes the full mutated game to `updateGame`). -/
def GameState.asUpdate (g : GameState) : GameUpdate :=
  { id := some g.id
    board := some g.board
    turn := some g.turn
    players := some g.players
    playerNames := some g.playerNames
    status := some g.status
    winner := some g.winner
    lastMove := some g.lastMove }

/-- `createGame` from db.ts: build the fresh session and persist it. -/
def createGame (s : Store) (gameId : String) (now : Nat) : GameState × Store :=
  let game : GameState :=
    { id := gameId
      board := initialBoard
      turn := Color.w
      players := ⟨none, none⟩
      playerNames := ⟨none, none⟩
      status := Status.waiting
      winner := none
      lastMove := now }
  (game, s.set gameId game)

/-- `getGame` from db.ts. -/
def getGame (s : Store) (gameId : String) : Option GameState :=
  s gameId

/-- `updateGame` from db.ts: reload, spread the updates over the loaded
game, stamp `lastMove`, persist. -/
def updateGame (s : Store) (gameId : String) (updates : GameUpdate) (now : Nat) :
    Option GameState × Store :=
  match getGame s gameId with
  | none => (none, s)
  | some game =>
    let updated := applyUpdate game updates now
    (some updated, s.set gameId updated)

/-- `joinGame` from db.ts.  Result `none` is the literal `null` return,
produced both when the session is absent and when both slots are occupied
by other players. -/
def joinGame (s : Store) (gameId playerId username : String) (now : Nat) :
    Option (GameState × Color) × Store :=
  match getGame s gameId with
  | none => (none, s)
  | some game =>
    if game.players.white = some playerId then (some (game, Color.w), s)
    else if game.players.black = some playerId then (some (game, Color.b), s)
    else if strFalsy game.players.white then
      let game' : GameState :=
        { game with
            players := { game.players with white := some playerId }
            playerNames := { game.playerNames with white := some username } }
      let r := updateGame s gameId game'.asUpdate now
      (some (game', Color.w), r.2)
    else if strFalsy game.players.black then
      let game' : GameState :=
        { game with
            players := { game.players with black := some playerId }
            playerNames := { game.playerNames with black := some username }
            status := Status.active }
      let r := updateGame s gameId game'.asUpdate now
      (some (game', Color.b), r.2)
    else (none, s)

/-- The observable outcomes of the route's join branch. -/
inductive JoinResponse
  | usernameRequired
  | gameFull
  | joined (g : GameState) (c : Color) (playerId : String)
  deriving DecidableEq

/-- The route's test `!username || username.trim().length === 0`: the
username is missing, empty, or entirely whitespace (`String.trim` itself is
not kernel-computable, so trimming-to-empty is modelled as all characters
being whitespace, which is the same predicate). -/
def usernameBlank (username : String) : Bool :=
  username.toList.all fun ch => ch.isWhitespace

/-- The `action === 'join'` branch of the POST route: a blank username is
rejected first; a `null` from `joinGame` — session absent or session full
alike — becomes the single 400 response `'Game is full'`. -/
def routeJoin (s : Store) (id playerId username : String) (now : Nat) :
    JoinResponse × Store :=
  if usernameBlank username then (JoinResponse.usernameRequired, s)
  else
    match joinGame s id playerId username now with
    | (none, s') => (JoinResponse.gameFull, s')
    | (some (g, c), s') => (JoinResponse.joined g c playerId, s')

/-- The observable outcomes of the route's move branch.  `fault` models an
exception escaping `isValidMove` / `makeMove` (a 500, not a chess reply);
`moved` carries what `updateGame` returned. -/
inductive MoveResponse
  | notFound
  | notYourTurn
  | invalidMove
  | fault
  | moved (g : Option GameState)
  deriving DecidableEq

/-- The inline `playerId → color` resolution of the move branch: the white
slot is compared first, then the black slot, else `null`. -/
def resolvePlayer (g : GameState) (playerId : String) : Option Color :=
  if g.players.white = some playerId then some Color.w
  else if g.players.black = some playerId then some Color.b
  else none

/-- The `action === 'move'` branch of the POST route. -/
def submitMove (s : Store) (id playerId : String) (fromP toP : Position) (now : Nat) :
    MoveResponse × Store :=
  match getGame s id with
  | none => (MoveResponse.notFound, s)
  | some game =>
    let playerColor := resolvePlayer game playerId
    if playerColor = none ∨ playerColor ≠ some game.turn then (MoveResponse.notYourTurn, s)
    else
      match isValidMove game.board fromP toP game.turn with
      | none => (MoveResponse.fault, s)
      | some false => (MoveResponse.invalidMove, s)
      | some true =>
        match makeMove game.board fromP toP with
        | none => (MoveResponse.fault, s)
        | some newBoard =>
          let newTurn : Color := if game.turn = Color.w then Color.b else Color.w
          let r := updateGame s id { board := some newBoard, turn := some newTurn } now
          (MoveResponse.moved r.1, r.2)

/-- The stores reachable through the public operations of the core,
starting from an empty store. -/
inductive Reachable : Store → Prop
  | emp : Reachable Store.emp
  | create (s : Store) (id : String) (now : Nat) :
      Reachable s → Reachable (createGame s id now).2
  | join (s : Store) (id pid name : String) (now : Nat) :
      Reachable s → Reachable (joinGame s id pid name now).2
  | move (s : Store) (id pid : String) (fromP toP : Position) (now : Nat) :
      Reachable s → Reachable (submitMove s id pid fromP toP now).2

/-! ## Spec-side definitions (refinement targets) and concrete fixtures -/

/-- The step the path walk takes in one coordinate (the sign of the
coordinate difference, as the two ternaries of `isPathClear` compute it). -/
def stepOf (a b : Int) : Int :=
  if a < b then 1 else if b < a then -1 else 0

/-- Modelled from the spec: the squares strictly between `fromP` and `toP`
along the straight line from the one to the other ("every square strictly
between the two endpoints"). -/
def betweenList (fromP toP : Position) : List Position :=
  let d := max (toP.row - fromP.row).natAbs (toP.col - fromP.col).natAbs
  (List.range (d - 1)).map fun (i : Nat) =>
    ⟨fromP.row + ((i : Int) + 1) * stepOf fromP.row toP.row,
     fromP.col + ((i : Int) + 1) * stepOf fromP.col toP.col⟩

/-- Modelled from the spec: the pawn moves the spec enumerates — one square
straight forward onto an empty square; two squares straight forward from the
home rank onto an empty square with an empty intervening square; one square
diagonally forward onto a square occupied by an opposing piece. -/
def pawnMoveSpec (board : Board) (fromP toP : Position) (c : Color) : Prop :=
  let dir : Int := if c = Color.w then -1 else 1
  let home : Int := if c = Color.w then 6 else 1
  (toP.col = fromP.col ∧ toP.row = fromP.row + dir
     ∧ squareRead board toP.row toP.col = some none)
  ∨ (toP.col = fromP.col ∧ fromP.row = home ∧ toP.row = fromP.row + 2 * dir
     ∧ squareRead board (fromP.row + dir) fromP.col = some none
     ∧ squareRead board toP.row toP.col = some none)
  ∨ ((toP.col - fromP.col).natAbs = 1 ∧ toP.row = fromP.row + dir
     ∧ ∃ q : ChessPiece, squareRead board toP.row toP.col = some (some q) ∧ q.color ≠ c)

/-- The per-session invariant the reachable stores maintain: `winner` is
never set, `finished` is never entered, and a session whose white slot is
still unset is still `waiting`. -/
def SessionInv (g : GameState) : Prop :=
  g.winner = none ∧ g.status ≠ Status.finished ∧
    (strFalsy g.players.white → g.status = Status.waiting)

/-- All sessions of the store satisfy `SessionInv`. -/
def StoreInv (s : Store) : Prop :=
  ∀ id g, s id = some g → SessionInv g

/-- Scenario F fixture: a white rook at `{7,0}`, a blocking piece at
`{7,3}`, everything else empty. -/
def rookBlockedBoard : Board :=
  [ [none, none, none, none, none, none, none, none],
    [none, none, none, none, none, none, none, none],
    [none, none, none, none, none, none, none, none],
    [none, none, none, none, none, none, none, none],
    [none, none, none, none, none, none, none, none],
    [none, none, none, none, none, none, none, none],
    [none, none, none, none, none, none, none, none],
    [some ⟨.r, .w⟩, none, none, some ⟨.p, .b⟩, none, none, none, none] ]

/-- A session with both slots taken by `"p1"` and `"p2"`. -/
def fullSession : GameState :=
  { (createGame Store.emp "g1" 0).1 with
      players := ⟨some "p1", some "p2"⟩
      playerNames := ⟨some "Alice", some "Bob"⟩
      status := Status.active }

/-- A store holding only the full session under id `"g1"`. -/
def fullStore : Store :=
  Store.emp.set "g1" fullSession

/-- The store after `createGame "g1"` on the empty store. -/
def storeC : Store :=
  (createGame Store.emp "g1" 0).2

/-- The store after `"p1"`/`"Alice"` joined `"g1"` in `storeC`. -/
def storeJ1 : Store :=
  (joinGame storeC "g1" "p1" "Alice" 1).2

/-- The store after `"p2"`/`"Bob"` also joined. -/
def storeJ2 : Store :=
  (joinGame storeJ1 "g1" "p2" "Bob" 2).2

/-- The white-slot assignment `joinGame` performs (named for the proofs;
`joinGame` itself builds this record inline). -/
def joinWhite (g : GameState) (pid name : String) : GameState :=
  { g with
      players := { g.players with white := some pid }
      playerNames := { g.playerNames with white := some name } }

/-- The black-slot assignment `joinGame` performs, which also activates the
session. -/
def joinBlack (g : GameState) (pid name : String) : GameState :=
  { g with
      players := { g.players with black := some pid }
      playerNames := { g.playerNames with black := some name }
      status := Status.active }

/-- The freshly created `"g1"` session. -/
def gameC : GameState :=
  (createGame Store.emp "g1" 0).1

/-- The session stored under `"g1"` in `storeJ1`, written out. -/
def gameJ1 : GameState :=
  { id := "g1"
    board := initialBoard
    turn := Color.w
    players := ⟨some "p1", none⟩
    playerNames := ⟨some "Alice", none⟩
    status := Status.waiting
    winner := none
    lastMove := 1 }

/-! ## Basic lemmas about the JavaScript array model -/

theorem jsGet_eq_some {α : Type} {xs : List α} {i : Int} {v : α}
    (h : jsGet xs i = some v) :
    0 ≤ i ∧ i < (xs.length : Int) ∧ xs.get? i.toNat = some v := by
  unfold jsGet at h
  split at h
  · rename_i h0
    refine ⟨h0, ?_, h⟩
    obtain ⟨hlt, -⟩ := List.get?_eq_some.mp h
    omega
  · exact absurd h (by simp)

theorem jsGet_of_lt {α : Type} {xs : List α} {i : Int}
    (h0 : 0 ≤ i) (hl : i < (xs.length : Int)) :
    ∃ v, jsGet xs i = some v ∧ xs.get? i.toNat = some v := by
  unfold jsGet
  rw [if_pos h0]
  have hlt : i.toNat < xs.length := by omega
  rcases List.get?_eq_some.mpr ⟨hlt, rfl⟩ with h
  exact ⟨_, h, h⟩

theorem jsGet_none {α : Type} {xs : List α} {i : Int}
    (h : ¬(0 ≤ i ∧ i < (xs.length : Int))) : jsGet xs i = none := by
  unfold jsGet
  split
  · rename_i h0
    refine List.get?_eq_none.mpr ?_
    have h2 : (xs.length : Int) ≤ i := by
      rcases lt_or_le i (xs.length : Int) with hlt | hle
      · exact absurd ⟨h0, hlt⟩ h
      · exact hle
    exact (Int.le_toNat h0).mpr h2
  · rfl

theorem jsSet_of_lt {α : Type} {xs : List α} {i : Int} (v : α)
    (h0 : 0 ≤ i) (hl : i < (xs.length : Int)) :
    jsSet xs i v = some (xs.set i.toNat v) := by
  unfold jsSet
  rw [if_pos ⟨h0, hl⟩]

theorem jsGet_set_self {α : Type} {xs ys : List α} {i : Int} {v : α}
    (h : jsSet xs i v = some ys) : jsGet ys i = some v := by
  unfold jsSet at h
  split at h
  · rename_i hb
    cases h
    unfold jsGet
    rw [if_pos hb.1]
    exact List.get?_set_eq_of_lt v (by omega)
  · exact absurd h (by simp)

theorem jsGet_set_ne {α : Type} {xs ys : List α} {i j : Int} {v : α}
    (h : jsSet xs i v = some ys) (hne : j ≠ i) : jsGet ys j = jsGet xs j := by
  unfold jsSet at h
  split at h
  · rename_i hb
    cases h
    unfold jsGet
    split
    · rename_i h0
      exact List.get?_set_ne v _ (by omega)
    · rfl
  · exact absurd h (by simp)

theorem jsSet_length {α : Type} {xs ys : List α} {i : Int} {v : α}
    (h : jsSet xs i v = some ys) : ys.length = xs.length := by
  unfold jsSet at h
  split at h
  · cases h; exact List.length_set ..
  · exact absurd h (by simp)

theorem squareRead_isSome {b : Board} (hwf : wfBoard b) {r : Int} (c : Int)
    (h0 : 0 ≤ r) (h7 : r ≤ 7) : ∃ p, squareRead b r c = some p := by
  obtain ⟨rowL, hrow, -⟩ := jsGet_of_lt h0 (show r < (b.length : Int) by rw [hwf.1]; omega)
  cases hq : jsGet rowL c with
  | none => exact ⟨none, by simp [squareRead, hrow, hq]⟩
  | some q => exact ⟨q, by simp [squareRead, hrow, hq]⟩

theorem squareRead_row {b : Board} {r c : Int} {p : Piece}
    (h : squareRead b r c = some p) :
    ∃ rowL, jsGet b r = some rowL ∧
      (match jsGet rowL c with | none => (none : Piece) | some q => q) = p := by
  unfold squareRead at h
  split at h
  · exact absurd h (by simp)
  · rename_i rowL hrow
    refine ⟨rowL, hrow, ?_⟩
    split at h <;> simp_all

theorem squareRead_fault {b : Board} {r c : Int}
    (h : jsGet b r = none) : squareRead b r c = none := by
  unfold squareRead
  rw [h]

theorem squareRead_some_bounds {b : Board} {r c : Int} {p : Piece}
    (h : squareRead b r c = some p) : 0 ≤ r ∧ r < (b.length : Int) := by
  obtain ⟨rowL, hrow, -⟩ := squareRead_row h
  have := jsGet_eq_some hrow
  exact ⟨this.1, this.2.1⟩

theorem squareRead_piece_bounds {b : Board} (hwf : wfBoard b) {r c : Int} {pc : ChessPiece}
    (h : squareRead b r c = some (some pc)) :
    0 ≤ r ∧ r ≤ 7 ∧ 0 ≤ c ∧ c ≤ 7 := by
  obtain ⟨rowL, hrow, hp⟩ := squareRead_row h
  obtain ⟨h0, hlt, hget⟩ := jsGet_eq_some hrow
  have hrl : rowL.length = 8 := hwf.2 rowL (List.get?_mem hget)
  have hcb : 0 ≤ c ∧ c < (rowL.length : Int) := by
    rcases hcol : jsGet rowL c with _ | q
    · rw [hcol] at hp; simp at hp
    · exact ⟨(jsGet_eq_some hcol).1, (jsGet_eq_some hcol).2.1⟩
  have hb8 := hwf.1
  refine ⟨h0, by omega, hcb.1, ?_⟩
  have := hcb.2
  omega

/-! ## The path-clear loop -/

theorem cast_succ_shift (x s : Int) (i : Nat) :
    x + ((i + 1 : Nat) : Int) * s = (x + s) + (i : Int) * s := by
  push_cast
  ring

theorem pathClearAux_eq (board : Board) (rs cs : Int)
    (hstep : ¬(rs = 0 ∧ cs = 0)) :
    ∀ (fuel k : Nat) (r c : Int), k < fuel →
      (∀ i : Nat, i < k →
        ∃ p, squareRead board (r + (i : Int) * rs) (c + (i : Int) * cs) = some p) →
      pathClearAux board (r + (k : Int) * rs) (c + (k : Int) * cs) rs cs fuel r c
        = some (decide (∀ i : Nat, i < k →
            squareRead board (r + (i : Int) * rs) (c + (i : Int) * cs) = some none)) := by
  intro fuel
  induction fuel with
  | zero => intro k r c hk; omega
  | succ fuel ih =>
    intro k r c hk hdef
    cases k with
    | zero =>
      simp [pathClearAux]
    | succ k =>
      have hkpos : ((k : Int) + 1) > 0 := by positivity
      have hne : ¬(r = r + ((k + 1 : Nat) : Int) * rs ∧ c = c + ((k + 1 : Nat) : Int) * cs) := by
        rintro ⟨h1, h2⟩
        apply hstep
        constructor
        · have hz : ((k : Int) + 1) * rs = 0 := by push_cast at h1; linarith
          rcases mul_eq_zero.mp hz with hz | hz
          · omega
          · exact hz
        · have hz : ((k : Int) + 1) * cs = 0 := by push_cast at h2; linarith
          rcases mul_eq_zero.mp hz with hz | hz
          · omega
          · exact hz
      obtain ⟨p0, hp0⟩ := hdef 0 (by omega)
      simp only [Nat.cast_zero, zero_mul, add_zero] at hp0
      rw [pathClearAux, if_neg hne]
      cases p0 with
      | some q =>
        rw [hp0]
        have hdec : decide (∀ i : Nat, i < k + 1 →
            squareRead board (r + (i : Int) * rs) (c + (i : Int) * cs) = some none) = false := by
          refine decide_eq_false ?_
          intro hall
          have h := hall 0 (by omega)
          simp only [Nat.cast_zero, zero_mul, add_zero] at h
          rw [hp0] at h
          simp at h
        rw [hdec]
      | none =>
        rw [hp0]
        have hshift : ∀ i : Nat, r + ((i + 1 : Nat) : Int) * rs = (r + rs) + (i : Int) * rs :=
          fun i => cast_succ_shift r rs i
        have hshiftc : ∀ i : Nat, c + ((i + 1 : Nat) : Int) * cs = (c + cs) + (i : Int) * cs :=
          fun i => cast_succ_shift c cs i
        have hdef' : ∀ i : Nat, i < k →
            ∃ p, squareRead board ((r + rs) + (i : Int) * rs) ((c + cs) + (i : Int) * cs) = some p := by
          intro i hi
          have h := hdef (i + 1) (by omega)
          rwa [hshift i, hshiftc i] at h
        have H := ih k (r + rs) (c + cs) (by omega) hdef'
        show pathClearAux board (r + ((k + 1 : Nat) : Int) * rs) (c + ((k + 1 : Nat) : Int) * cs)
              rs cs fuel (r + rs) (c + cs)
            = some (decide (∀ i : Nat, i < k + 1 →
                squareRead board (r + (i : Int) * rs) (c + (i : Int) * cs) = some none))
        rw [hshift k, hshiftc k, H]
        congr 1
        rw [decide_eq_decide]
        constructor
        · intro hA i hi
          cases i with
          | zero =>
            simpa only [Nat.cast_zero, zero_mul, add_zero] using hp0
          | succ j =>
            rw [hshift j, hshiftc j]
            exact hA j (by omega)
        · intro hB i hi
          have h := hB (i + 1) (by omega)
          rwa [hshift i, hshiftc i] at h

theorem isPathClear_as_aux (board : Board) (f t : Position) :
    isPathClear board f t
      = pathClearAux board t.row t.col (stepOf f.row t.row) (stepOf f.col t.col) 16
          (f.row + stepOf f.row t.row) (f.col + stepOf f.col t.col) := rfl

theorem isPathClear_eq (board : Board) (f t : Position) (d : Nat)
    (hd1 : 1 ≤ d) (hd16 : d ≤ 15)
    (hrow : t.row = f.row + (d : Int) * stepOf f.row t.row)
    (hcol : t.col = f.col + (d : Int) * stepOf f.col t.col)
    (hstep : ¬(stepOf f.row t.row = 0 ∧ stepOf f.col t.col = 0))
    (hdef : ∀ i : Nat, 1 ≤ i → i < d →
      ∃ p, squareRead board (f.row + (i : Int) * stepOf f.row t.row)
              (f.col + (i : Int) * stepOf f.col t.col) = some p) :
    isPathClear board f t
      = some (decide (∀ i : Nat, 1 ≤ i → i < d →
          squareRead board (f.row + (i : Int) * stepOf f.row t.row)
            (f.col + (i : Int) * stepOf f.col t.col) = some none)) := by
  set rs := stepOf f.row t.row with hrs
  set cs := stepOf f.col t.col with hcs
  have hshift : ∀ i : Nat, f.row + ((i + 1 : Nat) : Int) * rs = (f.row + rs) + (i : Int) * rs :=
    fun i => cast_succ_shift f.row rs i
  have hshiftc : ∀ i : Nat, f.col + ((i + 1 : Nat) : Int) * cs = (f.col + cs) + (i : Int) * cs :=
    fun i => cast_succ_shift f.col cs i
  have hdef' : ∀ i : Nat, i < d - 1 →
      ∃ p, squareRead board ((f.row + rs) + (i : Int) * rs) ((f.col + cs) + (i : Int) * cs) = some p := by
    intro i hi
    have h := hdef (i + 1) (by omega) (by omega)
    rwa [hshift i, hshiftc i] at h
  have H := pathClearAux_eq board rs cs hstep 16 (d - 1) (f.row + rs) (f.col + cs)
    (by omega) hdef'
  have htr : t.row = (f.row + rs) + ((d - 1 : Nat) : Int) * rs := by
    have hc : ((d - 1 : Nat) : Int) = (d : Int) - 1 := by omega
    rw [hc, hrow]
    ring
  have htc : t.col = (f.col + cs) + ((d - 1 : Nat) : Int) * cs := by
    have hc : ((d - 1 : Nat) : Int) = (d : Int) - 1 := by omega
    rw [hc, hcol]
    ring
  rw [isPathClear_as_aux, ← hrs, ← hcs, htr, htc, H]
  congr 1
  rw [decide_eq_decide]
  constructor
  · intro hA i h1 hid
    cases i with
    | zero => omega
    | succ j =>
      rw [hshift j, hshiftc j]
      exact hA j (by omega)
  · intro hB i hi
    have h := hB (i + 1) (by omega) (by omega)
    rwa [hshift i, hshiftc i] at h

theorem stepOf_of_lt {x y : Int} (h : x < y) : stepOf x y = 1 := by
  unfold stepOf
  rw [if_pos h]

theorem stepOf_of_gt {x y : Int} (h : y < x) : stepOf x y = -1 := by
  unfold stepOf
  rw [if_neg (by omega), if_pos h]

theorem stepOf_of_eq {x y : Int} (h : x = y) : stepOf x y = 0 := by
  unfold stepOf
  rw [if_neg (by omega), if_neg (by omega)]

theorem stepOf_decomp (x y : Int) : y = x + ((y - x).natAbs : Int) * stepOf x y := by
  rcases lt_trichotomy x y with h | h | h
  · rw [stepOf_of_lt h]; omega
  · rw [stepOf_of_eq h]; omega
  · rw [stepOf_of_gt h]; omega

theorem path_coord_range (x tx : Int) (d i : Nat) (hi : i ≤ d)
    (hx0 : 0 ≤ x) (hx7 : x ≤ 7) (ht0 : 0 ≤ tx) (ht7 : tx ≤ 7)
    (hdec : tx = x + (d : Int) * stepOf x tx) :
    0 ≤ x + (i : Int) * stepOf x tx ∧ x + (i : Int) * stepOf x tx ≤ 7 := by
  rcases lt_trichotomy x tx with h | h | h
  · rw [stepOf_of_lt h] at hdec ⊢; omega
  · rw [stepOf_of_eq h] at hdec ⊢; omega
  · rw [stepOf_of_gt h] at hdec ⊢; omega

/-! ## Rejection lemmas for `isValidMove` -/

theorem isValidMove_empty_from {board : Board} {f t : Position} {turn : Color}
    (h : squareRead board f.row f.col = some none) :
    isValidMove board f t turn = some false := by
  simp [isValidMove, h]

theorem isValidMove_wrong_color {board : Board} {f t : Position} {turn : Color} {q : ChessPiece}
    (hq : squareRead board f.row f.col = some (some q)) (hne : q.color ≠ turn) :
    isValidMove board f t turn = some false := by
  simp only [isValidMove, hq]
  rw [if_pos hne]

theorem isValidMove_target_oob {board : Board} {f t : Position} {turn : Color} {q : ChessPiece}
    (hq : squareRead board f.row f.col = some (some q))
    (hout : t.row < 0 ∨ 7 < t.row ∨ t.col < 0 ∨ 7 < t.col) :
    isValidMove board f t turn = some false := by
  by_cases hc : q.color = turn
  · simp only [isValidMove, hq]
    rw [if_neg (not_not_intro hc), if_pos hout]
  · exact isValidMove_wrong_color hq hc

theorem isValidMove_self_capture {board : Board} {f t : Position} {turn : Color}
    {q q' : ChessPiece} (hwf : wfBoard board)
    (hq : squareRead board f.row f.col = some (some q))
    (hq' : squareRead board t.row t.col = some (some q'))
    (hcol : q'.color = q.color) :
    isValidMove board f t turn = some false := by
  by_cases hc : q.color = turn
  · have hb := squareRead_piece_bounds hwf hq'
    simp only [isValidMove, hq]
    rw [if_neg (not_not_intro hc), if_neg (by omega)]
    simp only [hq']
    rw [if_pos (by simp [Option.any, hcol])]
  · exact isValidMove_wrong_color hq hc

/-! ## Piece-branch reductions for `isValidMove` -/

theorem isValidMove_rook_branch {board : Board} {f t : Position} {pc : ChessPiece} {target : Piece}
    (hq : squareRead board f.row f.col = some (some pc))
    (hin : ¬(t.row < 0 ∨ 7 < t.row ∨ t.col < 0 ∨ 7 < t.col))
    (ht : squareRead board t.row t.col = some target)
    (hsc : (target.any fun q => q.color = pc.color) = false)
    (htype : pc.type = PieceType.r) :
    isValidMove board f t pc.color
      = if t.row - f.row = 0 ∨ t.col - f.col = 0 then isPathClear board f t else some false := by
  simp only [isValidMove, hq, ht, htype]
  rw [if_neg (not_not_intro rfl), if_neg hin, if_neg (by simp [hsc])]

theorem isValidMove_bishop_branch {board : Board} {f t : Position} {pc : ChessPiece} {target : Piece}
    (hq : squareRead board f.row f.col = some (some pc))
    (hin : ¬(t.row < 0 ∨ 7 < t.row ∨ t.col < 0 ∨ 7 < t.col))
    (ht : squareRead board t.row t.col = some target)
    (hsc : (target.any fun q => q.color = pc.color) = false)
    (htype : pc.type = PieceType.b) :
    isValidMove board f t pc.color
      = if (t.row - f.row).natAbs = (t.col - f.col).natAbs then isPathClear board f t
        else some false := by
  simp only [isValidMove, hq, ht, htype]
  rw [if_neg (not_not_intro rfl), if_neg hin, if_neg (by simp [hsc])]

theorem isValidMove_queen_branch {board : Board} {f t : Position} {pc : ChessPiece} {target : Piece}
    (hq : squareRead board f.row f.col = some (some pc))
    (hin : ¬(t.row < 0 ∨ 7 < t.row ∨ t.col < 0 ∨ 7 < t.col))
    (ht : squareRead board t.row t.col = some target)
    (hsc : (target.any fun q => q.color = pc.color) = false)
    (htype : pc.type = PieceType.q) :
    isValidMove board f t pc.color
      = if t.row - f.row = 0 ∨ t.col - f.col = 0
           ∨ (t.row - f.row).natAbs = (t.col - f.col).natAbs then isPathClear board f t
        else some false := by
  simp only [isValidMove, hq, ht, htype]
  rw [if_neg (not_not_intro rfl), if_neg hin, if_neg (by simp [hsc])]

theorem isValidMove_knight_branch {board : Board} {f t : Position} {pc : ChessPiece} {target : Piece}
    (hq : squareRead board f.row f.col = some (some pc))
    (hin : ¬(t.row < 0 ∨ 7 < t.row ∨ t.col < 0 ∨ 7 < t.col))
    (ht : squareRead board t.row t.col = some target)
    (hsc : (target.any fun q => q.color = pc.color) = false)
    (htype : pc.type = PieceType.n) :
    isValidMove board f t pc.color
      = if ((t.row - f.row).natAbs = 2 ∧ (t.col - f.col).natAbs = 1)
           ∨ ((t.row - f.row).natAbs = 1 ∧ (t.col - f.col).natAbs = 2) then some true
        else some false := by
  simp only [isValidMove, hq, ht, htype]
  rw [if_neg (not_not_intro rfl), if_neg hin, if_neg (by simp [hsc])]

theorem isValidMove_king_branch {board : Board} {f t : Position} {pc : ChessPiece} {target : Piece}
    (hq : squareRead board f.row f.col = some (some pc))
    (hin : ¬(t.row < 0 ∨ 7 < t.row ∨ t.col < 0 ∨ 7 < t.col))
    (ht : squareRead board t.row t.col = some target)
    (hsc : (target.any fun q => q.color = pc.color) = false)
    (htype : pc.type = PieceType.k) :
    isValidMove board f t pc.color
      = if (t.row - f.row).natAbs ≤ 1 ∧ (t.col - f.col).natAbs ≤ 1 then some true
        else some false := by
  simp only [isValidMove, hq, ht, htype]
  rw [if_neg (not_not_intro rfl), if_neg hin, if_neg (by simp [hsc])]

theorem isValidMove_pawn_branch {board : Board} {f t : Position} {pc : ChessPiece} {target : Piece}
    (hq : squareRead board f.row f.col = some (some pc))
    (hin : ¬(t.row < 0 ∨ 7 < t.row ∨ t.col < 0 ∨ 7 < t.col))
    (ht : squareRead board t.row t.col = some target)
    (hsc : (target.any fun q => q.color = pc.color) = false)
    (htype : pc.type = PieceType.p) :
    isValidMove board f t pc.color
      = (if t.col - f.col = 0 ∧ target = none then
           if t.row - f.row = (if pc.color = Color.w then -1 else 1) then some true
           else if f.row = (if pc.color = Color.w then 6 else 1)
               ∧ t.row - f.row = 2 * (if pc.color = Color.w then -1 else 1) then
             match squareRead board (f.row + (if pc.color = Color.w then -1 else 1)) f.col with
             | none => none
             | some none => some true
             | some (some _) =>
               pawnDiag target (t.row - f.row) (t.col - f.col)
                 (if pc.color = Color.w then -1 else 1)
           else pawnDiag target (t.row - f.row) (t.col - f.col)
             (if pc.color = Color.w then -1 else 1)
         else pawnDiag target (t.row - f.row) (t.col - f.col)
           (if pc.color = Color.w then -1 else 1)) := by
  simp only [isValidMove, hq, ht, htype]
  rw [if_neg (not_not_intro rfl), if_neg hin, if_neg (by simp [hsc])]

/-! ## Claim C3 -/

/-- C3: for every 8×8 board, every square `fromP` of the grid, and every
turn colour, `isValidMove` returns `some false` (a normal boolean, not a
fault) whenever the from square is empty, or holds a piece not of the turn
colour, or the destination lies outside [0,7]×[0,7], or the destination
holds a piece of the mover's own colour.  In particular on the empty board
every out-of-grid destination is rejected with `false`. -/
theorem isValidMove_basic_rejections (board : Board) (fromP toP : Position) (turn : Color)
    (hwf : wfBoard board)
    (hf : 0 ≤ fromP.row ∧ fromP.row ≤ 7 ∧ 0 ≤ fromP.col ∧ fromP.col ≤ 7) :
    (squareRead board fromP.row fromP.col = some none →
       isValidMove board fromP toP turn = some false)
    ∧ (∀ q : ChessPiece, squareRead board fromP.row fromP.col = some (some q) →
        q.color ≠ turn → isValidMove board fromP toP turn = some false)
    ∧ ((toP.row < 0 ∨ 7 < toP.row ∨ toP.col < 0 ∨ 7 < toP.col) →
        isValidMove board fromP toP turn = some false)
    ∧ (∀ q q' : ChessPiece, squareRead board fromP.row fromP.col = some (some q) →
        squareRead board toP.row toP.col = some (some q') → q'.color = q.color →
        isValidMove board fromP toP turn = some false) := by
  refine ⟨fun h => isValidMove_empty_from h,
          fun q hq hne => isValidMove_wrong_color hq hne, ?_,
          fun q q' hq hq' hc => isValidMove_self_capture hwf hq hq' hc⟩
  intro hout
  obtain ⟨fp, hfp⟩ := squareRead_isSome hwf fromP.col hf.1 hf.2.1
  cases fp with
  | none => exact isValidMove_empty_from hfp
  | some q => exact isValidMove_target_oob hfp hout

/-- Witness for C3: concrete application on the empty board with the
out-of-grid destination `{-1,0}`. -/
theorem isValidMove_basic_rejections_witness :
    wfBoard emptyBoard ∧ isValidMove emptyBoard ⟨3, 3⟩ ⟨-1, 0⟩ Color.w = some false :=
  ⟨by decide,
   (isValidMove_basic_rejections emptyBoard ⟨3, 3⟩ ⟨-1, 0⟩ Color.w (by decide)
      (by decide)).2.2.1 (by decide)⟩

/-! ## Claim C4 -/

/-- C4: for a pawn of colour `c` at `f`, a grid destination `t` is accepted
by `isValidMove` exactly when it is one of the spec's three pawn moves
(single advance onto an empty square, double advance from the home rank
over an empty intervening square, diagonal capture of an opposing piece);
and on the initial board `getValidMoves` for the home-rank pawns returns
exactly the one- and two-square advances, no empty diagonals. -/
theorem pawn_moves_characterized (board : Board) (f t : Position) (c : Color) (pc : ChessPiece)
    (hwf : wfBoard board)
    (hq : squareRead board f.row f.col = some (some pc))
    (htype : pc.type = PieceType.p) (hcol : pc.color = c)
    (ht : 0 ≤ t.row ∧ t.row ≤ 7 ∧ 0 ≤ t.col ∧ t.col ≤ 7) :
    (isValidMove board f t c = some true ↔ pawnMoveSpec board f t c)
    ∧ getValidMoves initialBoard ⟨6, 4⟩ Color.w = some [⟨4, 4⟩, ⟨5, 4⟩]
    ∧ getValidMoves initialBoard ⟨1, 3⟩ Color.b = some [⟨2, 3⟩, ⟨3, 3⟩] := by
  refine ⟨?_, by decide, by decide⟩
  subst hcol
  have hin : ¬(t.row < 0 ∨ 7 < t.row ∨ t.col < 0 ∨ 7 < t.col) := by omega
  obtain ⟨target, htar⟩ := squareRead_isSome hwf t.col ht.1 ht.2.1
  by_cases hscP : ∃ q : ChessPiece, target = some q ∧ q.color = pc.color
  · obtain ⟨q, rfl, hqc⟩ := hscP
    rw [isValidMove_self_capture hwf hq htar hqc]
    refine iff_of_false (by simp) ?_
    simp only [pawnMoveSpec]
    rintro (⟨h1, h2, h3⟩ | ⟨h1, h2, h3, h4, h5⟩ | ⟨h1, h2, q', hq', hne⟩)
    · rw [htar] at h3; exact absurd h3 (by simp)
    · rw [htar] at h5; exact absurd h5 (by simp)
    · rw [htar] at hq'
      have : q = q' := by injection hq' with h; injection h
      exact hne (this ▸ hqc)
  · have hsc : (target.any fun q => q.color = pc.color) = false := by
      cases target with
      | none => rfl
      | some q =>
        show decide (q.color = pc.color) = false
        exact decide_eq_false fun h => hscP ⟨q, rfl, h⟩
    rw [isValidMove_pawn_branch hq hin htar hsc htype]
    simp only [pawnMoveSpec]
    set dir : Int := if pc.color = Color.w then -1 else 1 with hdirdef
    set home : Int := if pc.color = Color.w then 6 else 1 with hhomedef
    have hdh : (dir = -1 ∧ home = 6) ∨ (dir = 1 ∧ home = 1) := by
      cases hcw : pc.color
      · left; constructor <;> simp [hdirdef, hhomedef, hcw]
      · right; constructor <;> simp [hdirdef, hhomedef, hcw]
    by_cases h1 : t.col - f.col = 0 ∧ target = none
    · rw [if_pos h1]
      obtain ⟨hcol0, rfl⟩ := h1
      by_cases h2 : t.row - f.row = dir
      · rw [if_pos h2]
        refine iff_of_true rfl (Or.inl ⟨by omega, by omega, htar⟩)
      · rw [if_neg h2]
        by_cases h3 : f.row = home ∧ t.row - f.row = 2 * dir
        · rw [if_pos h3]
          have hmb : 0 ≤ f.row + dir ∧ f.row + dir ≤ 7 := by
            rcases hdh with ⟨hd, hh⟩ | ⟨hd, hh⟩ <;> (rw [hd]; rw [hd, hh] at h3; omega)
          obtain ⟨mid, hmid⟩ := squareRead_isSome hwf f.col hmb.1 hmb.2
          rw [hmid]
          cases mid with
          | none =>
            refine iff_of_true rfl (Or.inr (Or.inl ⟨by omega, h3.1, by omega, rfl, htar⟩))
          | some m =>
            rw [show pawnDiag none (t.row - f.row) (t.col - f.col) dir = some false by
              simp [pawnDiag]]
            refine iff_of_false (by simp) ?_
            rintro (⟨g1, g2, g3⟩ | ⟨g1, g2, g3, g4, g5⟩ | ⟨g1, g2, q', hq', hne⟩)
            · exact h2 (by omega)
            · exact absurd g4 (by simp)
            · rw [htar] at hq'; exact absurd hq' (by simp)
        · rw [if_neg h3]
          rw [show pawnDiag none (t.row - f.row) (t.col - f.col) dir = some false by
            simp [pawnDiag]]
          refine iff_of_false (by simp) ?_
          rintro (⟨g1, g2, g3⟩ | ⟨g1, g2, g3, g4, g5⟩ | ⟨g1, g2, q', hq', hne⟩)
          · exact h2 (by omega)
          · exact h3 ⟨g2, by omega⟩
          · rw [htar] at hq'; exact absurd hq' (by simp)
    · rw [if_neg h1]
      unfold pawnDiag
      by_cases h4 : (t.col - f.col).natAbs = 1 ∧ t.row - f.row = dir ∧ target ≠ none
      · rw [if_pos h4]
        obtain ⟨g1, g2, g3⟩ := h4
        cases target with
        | none => exact absurd rfl g3
        | some q =>
          have hqc : q.color ≠ pc.color := by
            intro h
            exact hscP ⟨q, rfl, h⟩
          exact iff_of_true rfl (Or.inr (Or.inr ⟨g1, by omega, q, htar, hqc⟩))
      · rw [if_neg h4]
        refine iff_of_false (by simp) ?_
        rintro (⟨g1, g2, g3⟩ | ⟨g1, g2, g3, g4, g5⟩ | ⟨g1, g2, q', hq', hne⟩)
        · rw [htar] at g3
          have : target = none := by injection g3
          exact h1 ⟨by omega, this⟩
        · rw [htar] at g5
          have : target = none := by injection g5
          exact h1 ⟨by omega, this⟩
        · rw [htar] at hq'
          have : target = some q' := by injection hq'
          exact h4 ⟨g1, by omega, by rw [this]; simp⟩

/-! ## Claim C5 -/

theorem stepOf_eq_zero {x y : Int} (h : stepOf x y = 0) : x = y := by
  rcases lt_trichotomy x y with hl | hl | hl
  · rw [stepOf_of_lt hl] at h; omega
  · exact hl
  · rw [stepOf_of_gt hl] at h; omega

theorem align_decomp (f t : Position)
    (halign : t.row - f.row = 0 ∨ t.col - f.col = 0 ∨
      (t.row - f.row).natAbs = (t.col - f.col).natAbs) :
    t.row = f.row + ((max (t.row - f.row).natAbs (t.col - f.col).natAbs : Nat) : Int)
        * stepOf f.row t.row
    ∧ t.col = f.col + ((max (t.row - f.row).natAbs (t.col - f.col).natAbs : Nat) : Int)
        * stepOf f.col t.col := by
  constructor
  · rcases lt_trichotomy f.row t.row with h | h | h
    · rw [stepOf_of_lt h]
      rcases halign with ha | ha | ha <;> omega
    · rw [stepOf_of_eq h]; omega
    · rw [stepOf_of_gt h]
      rcases halign with ha | ha | ha <;> omega
  · rcases lt_trichotomy f.col t.col with h | h | h
    · rw [stepOf_of_lt h]
      rcases halign with ha | ha | ha <;> omega
    · rw [stepOf_of_eq h]; omega
    · rw [stepOf_of_gt h]
      rcases halign with ha | ha | ha <;> omega

theorem betweenList_mem (f t p : Position) :
    p ∈ betweenList f t ↔
      ∃ j : Nat, j < max (t.row - f.row).natAbs (t.col - f.col).natAbs - 1 ∧
        p = ⟨f.row + ((j : Int) + 1) * stepOf f.row t.row,
             f.col + ((j : Int) + 1) * stepOf f.col t.col⟩ := by
  simp only [betweenList, List.mem_map, List.mem_range]
  constructor
  · rintro ⟨j, hj, rfl⟩
    exact ⟨j, hj, rfl⟩
  · rintro ⟨j, hj, rfl⟩
    exact ⟨j, hj, rfl⟩

/-- On an 8×8 board, for an aligned pair of distinct grid squares, the walk
of `isPathClear` terminates and answers exactly "every square strictly
between the endpoints is empty". -/
theorem slider_core (board : Board) (f t : Position)
    (hwf : wfBoard board)
    (hf : 0 ≤ f.row ∧ f.row ≤ 7 ∧ 0 ≤ f.col ∧ f.col ≤ 7)
    (ht : 0 ≤ t.row ∧ t.row ≤ 7 ∧ 0 ≤ t.col ∧ t.col ≤ 7)
    (halign : t.row - f.row = 0 ∨ t.col - f.col = 0 ∨
      (t.row - f.row).natAbs = (t.col - f.col).natAbs)
    (hne : ¬(t.row = f.row ∧ t.col = f.col)) :
    isPathClear board f t
      = some (decide (∀ p ∈ betweenList f t, squareRead board p.row p.col = some none)) := by
  have hdecomp := align_decomp f t halign
  set d : Nat := max (t.row - f.row).natAbs (t.col - f.col).natAbs with hd
  have hd1 : 1 ≤ d := by omega
  have hd15 : d ≤ 15 := by omega
  have hstep : ¬(stepOf f.row t.row = 0 ∧ stepOf f.col t.col = 0) := by
    rintro ⟨h1, h2⟩
    exact hne ⟨(stepOf_eq_zero h1).symm, (stepOf_eq_zero h2).symm⟩
  have hdef : ∀ i : Nat, 1 ≤ i → i < d →
      ∃ p, squareRead board (f.row + (i : Int) * stepOf f.row t.row)
              (f.col + (i : Int) * stepOf f.col t.col) = some p := by
    intro i h1 hid
    have hb := path_coord_range f.row t.row d i (by omega) hf.1 hf.2.1 ht.1 ht.2.1 hdecomp.1
    exact squareRead_isSome hwf _ hb.1 hb.2
  rw [isPathClear_eq board f t d hd1 hd15 hdecomp.1 hdecomp.2 hstep hdef]
  congr 1
  rw [decide_eq_decide]
  constructor
  · intro hP p hp
    rw [betweenList_mem, ← hd] at hp
    obtain ⟨j, hj, rfl⟩ := hp
    have h := hP (j + 1) (by omega) (by omega)
    push_cast at h
    exact h
  · intro hB i h1 hid
    have hmem : (⟨f.row + (i : Int) * stepOf f.row t.row,
        f.col + (i : Int) * stepOf f.col t.col⟩ : Position) ∈ betweenList f t := by
      rw [betweenList_mem, ← hd]
      refine ⟨i - 1, by omega, ?_⟩
      have hcast : ((i - 1 : Nat) : Int) + 1 = (i : Int) := by omega
      rw [hcast]
    exact hB _ hmem

/-- C5: for every slider (rook, bishop, queen) move on an 8×8 board,
`isValidMove` answers `some true` only if every square strictly between the
endpoints is empty, and any occupied strictly-intervening square forces the
answer `some false`; in particular the rook at `{7,0}` blocked at `{7,3}`
cannot reach `{7,5}`. -/
theorem slider_blocked_path (board : Board) (f t : Position) (c : Color) (pc : ChessPiece)
    (hwf : wfBoard board)
    (hq : squareRead board f.row f.col = some (some pc))
    (htype : pc.type = PieceType.r ∨ pc.type = PieceType.b ∨ pc.type = PieceType.q)
    (hcol : pc.color = c)
    (ht : 0 ≤ t.row ∧ t.row ≤ 7 ∧ 0 ≤ t.col ∧ t.col ≤ 7) :
    (isValidMove board f t c = some true →
      ∀ p ∈ betweenList f t, squareRead board p.row p.col = some none)
    ∧ ((∃ p ∈ betweenList f t, ∃ q : ChessPiece,
          squareRead board p.row p.col = some (some q)) →
      isValidMove board f t c = some false)
    ∧ isValidMove rookBlockedBoard ⟨7, 0⟩ ⟨7, 5⟩ Color.w = some false := by
  refine ?_
  subst hcol
  have hin : ¬(t.row < 0 ∨ 7 < t.row ∨ t.col < 0 ∨ 7 < t.col) := by omega
  have hfb := squareRead_piece_bounds hwf hq
  obtain ⟨target, htar⟩ := squareRead_isSome hwf t.col ht.1 ht.2.1
  by_cases hscP : ∃ q : ChessPiece, target = some q ∧ q.color = pc.color
  · obtain ⟨q, rfl, hqc⟩ := hscP
    have hfalse : isValidMove board f t pc.color = some false :=
      isValidMove_self_capture hwf hq htar hqc
    refine ⟨fun h => ?_, fun _ => hfalse, by decide⟩
    rw [hfalse] at h
    exact absurd h (by simp)
  · have hsc : (target.any fun q => q.color = pc.color) = false := by
      cases target with
      | none => rfl
      | some q =>
        show decide (q.color = pc.color) = false
        exact decide_eq_false fun h => hscP ⟨q, rfl, h⟩
    have hteqf : t.row = f.row ∧ t.col = f.col → False := by
      rintro ⟨h1, h2⟩
      rw [h1, h2] at htar
      have : target = some pc := by
        have := htar.symm.trans hq
        injection this
      exact hscP ⟨pc, this, rfl⟩
    rcases htype with h | h | h
    · rw [isValidMove_rook_branch hq hin htar hsc h]
      by_cases hcond : t.row - f.row = 0 ∨ t.col - f.col = 0
      · rw [if_pos hcond,
          slider_core board f t hwf hfb ht (Or.imp_right Or.inl hcond) hteqf]
        refine ⟨fun h2 => of_decide_eq_true (Option.some.inj h2), ?_, by decide⟩
        rintro ⟨p, hp, q, hpq⟩
        refine congrArg some (decide_eq_false ?_)
        intro hall
        have := hall p hp
        rw [hpq] at this
        exact absurd this (by simp)
      · rw [if_neg hcond]
        exact ⟨fun h2 => absurd h2 (by simp), fun _ => rfl, by decide⟩
    · rw [isValidMove_bishop_branch hq hin htar hsc h]
      by_cases hcond : (t.row - f.row).natAbs = (t.col - f.col).natAbs
      · rw [if_pos hcond,
          slider_core board f t hwf hfb ht (Or.inr (Or.inr hcond)) hteqf]
        refine ⟨fun h2 => of_decide_eq_true (Option.some.inj h2), ?_, by decide⟩
        rintro ⟨p, hp, q, hpq⟩
        refine congrArg some (decide_eq_false ?_)
        intro hall
        have := hall p hp
        rw [hpq] at this
        exact absurd this (by simp)
      · rw [if_neg hcond]
        exact ⟨fun h2 => absurd h2 (by simp), fun _ => rfl, by decide⟩
    · rw [isValidMove_queen_branch hq hin htar hsc h]
      by_cases hcond : t.row - f.row = 0 ∨ t.col - f.col = 0
          ∨ (t.row - f.row).natAbs = (t.col - f.col).natAbs
      · rw [if_pos hcond, slider_core board f t hwf hfb ht hcond hteqf]
        refine ⟨fun h2 => of_decide_eq_true (Option.some.inj h2), ?_, by decide⟩
        rintro ⟨p, hp, q, hpq⟩
        refine congrArg some (decide_eq_false ?_)
        intro hall
        have := hall p hp
        rw [hpq] at this
        exact absurd this (by simp)
      · rw [if_neg hcond]
        exact ⟨fun h2 => absurd h2 (by simp), fun _ => rfl, by decide⟩

/-! ## `makeMove` -/

theorem squareRead_eq {b : Board} {r : Int} {rowL : List Piece}
    (h : jsGet b r = some rowL) (c : Int) :
    squareRead b r c
      = some (match jsGet rowL c with | none => none | some p => p) := by
  cases hq : jsGet rowL c <;> simp [squareRead, h, hq]

/-- On an 8×8 board with both squares on the grid, `makeMove` succeeds; the
source square of the result is empty, the destination (when distinct from
the source) holds exactly what the source held, and every other square is
untouched. -/
theorem makeMove_spec (board : Board) (f t : Position)
    (hwf : wfBoard board)
    (hf : 0 ≤ f.row ∧ f.row ≤ 7 ∧ 0 ≤ f.col ∧ f.col ≤ 7)
    (ht : 0 ≤ t.row ∧ t.row ≤ 7 ∧ 0 ≤ t.col ∧ t.col ≤ 7) :
    ∃ b' piece, squareRead board f.row f.col = some piece ∧ makeMove board f t = some b'
      ∧ squareRead b' f.row f.col = some none
      ∧ (¬(t.row = f.row ∧ t.col = f.col) → squareRead b' t.row t.col = some piece)
      ∧ ∀ r c : Int, ¬(r = f.row ∧ c = f.col) → ¬(r = t.row ∧ c = t.col) →
          squareRead b' r c = squareRead board r c := by
  have hlen : (board.length : Int) = 8 := by exact_mod_cast hwf.1
  obtain ⟨toRow, htoRow, htoRowget⟩ :=
    jsGet_of_lt ht.1 (show t.row < (board.length : Int) by omega)
  have htoRowLen : toRow.length = 8 := hwf.2 _ (List.get?_mem htoRowget)
  obtain ⟨fromRow0, hfromRow0, hfromRow0get⟩ :=
    jsGet_of_lt hf.1 (show f.row < (board.length : Int) by omega)
  have hfromRow0Len : fromRow0.length = 8 := hwf.2 _ (List.get?_mem hfromRow0get)
  have hpiece := squareRead_eq hfromRow0 f.col
  set piece : Piece := (match jsGet fromRow0 f.col with | none => none | some p => p)
    with hpdef
  have hset1 : jsSet toRow t.col piece = some (toRow.set t.col.toNat piece) :=
    jsSet_of_lt piece ht.2.2.1 (by rw [htoRowLen]; omega)
  set toRow2 : List Piece := toRow.set t.col.toNat piece with htr2
  have hset2 : jsSet board t.row toRow2 = some (board.set t.row.toNat toRow2) :=
    jsSet_of_lt _ ht.1 (by omega)
  set b1 : Board := board.set t.row.toNat toRow2 with hb1
  have hb1len : (b1.length : Int) = 8 := by
    rw [hb1]
    rw [show (board.set t.row.toNat toRow2).length = board.length from List.length_set ..]
    exact hlen
  obtain ⟨fromRow, hfromRow, -⟩ :=
    jsGet_of_lt hf.1 (show f.row < (b1.length : Int) by omega)
  have hfromRowCases : (f.row = t.row ∧ fromRow = toRow2)
      ∨ (f.row ≠ t.row ∧ fromRow = fromRow0) := by
    by_cases hrr : f.row = t.row
    · left
      refine ⟨hrr, ?_⟩
      have h := jsGet_set_self hset2
      rw [← hrr] at h
      rw [h] at hfromRow
      injection hfromRow with h2
      exact h2.symm
    · right
      refine ⟨hrr, ?_⟩
      have h := jsGet_set_ne hset2 hrr
      rw [h, hfromRow0] at hfromRow
      injection hfromRow with h2
      exact h2.symm
  have hfromRowLen : fromRow.length = 8 := by
    rcases hfromRowCases with ⟨-, h⟩ | ⟨-, h⟩
    · rw [h, htr2, List.length_set, htoRowLen]
    · rw [h, hfromRow0Len]
  have hset3 : jsSet fromRow f.col (none : Piece)
      = some (fromRow.set f.col.toNat none) :=
    jsSet_of_lt _ hf.2.2.1 (by rw [hfromRowLen]; omega)
  set fromRow2 : List Piece := fromRow.set f.col.toNat none with hfr2
  have hset4 : jsSet b1 f.row fromRow2 = some (b1.set f.row.toNat fromRow2) :=
    jsSet_of_lt _ hf.1 (by omega)
  set b2 : Board := b1.set f.row.toNat fromRow2 with hb2
  have hmm : makeMove board f t = some b2 := by
    simp only [makeMove, hpiece, htoRow, hset1, hset2, hfromRow, hset3, hset4,
      Option.bind_eq_bind, Option.some_bind]
  have hrow_b2_f : jsGet b2 f.row = some fromRow2 := jsGet_set_self hset4
  have hrow_b1_t : jsGet b1 t.row = some toRow2 := jsGet_set_self hset2
  refine ⟨b2, piece, hpiece, hmm, ?_, ?_, ?_⟩
  · rw [squareRead_eq hrow_b2_f, jsGet_set_self hset3]
  · intro hne
    by_cases hrr : t.row = f.row
    · have hcc : t.col ≠ f.col := fun hc => hne ⟨hrr, hc⟩
      rcases hfromRowCases with ⟨-, hfr⟩ | ⟨hno, -⟩
      · rw [hrr, squareRead_eq hrow_b2_f, jsGet_set_ne hset3 hcc, hfr,
          jsGet_set_self hset1]
      · exact absurd hrr.symm hno
    · have hrow_b2_t : jsGet b2 t.row = some toRow2 := by
        rw [jsGet_set_ne hset4 hrr]
        exact hrow_b1_t
      rw [squareRead_eq hrow_b2_t, jsGet_set_self hset1]
  · intro r c hnf hnt
    by_cases hr1 : r = f.row
    · have hc1 : c ≠ f.col := fun hc => hnf ⟨hr1, hc⟩
      rw [hr1, squareRead_eq hrow_b2_f, jsGet_set_ne hset3 hc1]
      rcases hfromRowCases with ⟨heq, hfr⟩ | ⟨-, hfr⟩
      · have hc2 : c ≠ t.col := fun hc => hnt ⟨by rw [hr1, heq], hc⟩
        rw [hfr, htr2]
        rw [show jsGet (toRow.set t.col.toNat piece) c = jsGet toRow c from
          jsGet_set_ne hset1 hc2]
        rw [← heq] at htoRow
        rw [squareRead_eq htoRow]
      · rw [hfr, squareRead_eq hfromRow0]
    · have hrw : jsGet b2 r = jsGet b1 r := jsGet_set_ne hset4 hr1
      by_cases hr2 : r = t.row
      · have hc2 : c ≠ t.col := fun hc => hnt ⟨hr2, hc⟩
        rw [hr2] at hrw
        rw [hr2, squareRead_eq (hrw.trans hrow_b1_t), jsGet_set_ne hset1 hc2,
          squareRead_eq htoRow]
      · have hrw2 : jsGet b1 r = jsGet board r := jsGet_set_ne hset2 hr2
        unfold squareRead
        rw [hrw, hrw2]

/-! ## Session-manager helper lemmas -/

theorem store_set_lookup {s : Store} {k k' : String} {g g' : GameState}
    (h : (s.set k g) k' = some g') : (k' = k ∧ g' = g) ∨ (k' ≠ k ∧ s k' = some g') := by
  unfold Store.set at h
  split at h
  · rename_i he
    left
    exact ⟨he, (Option.some.inj h).symm⟩
  · rename_i he
    right
    exact ⟨he, h⟩

theorem store_set_self (s : Store) (k : String) (g : GameState) :
    (s.set k g) k = some g := by
  unfold Store.set
  rw [if_pos rfl]

/-- Exhaustive case analysis of `joinGame`. -/
theorem joinGame_cases (s : Store) (id pid name : String) (now : Nat) :
    (getGame s id = none ∧ joinGame s id pid name now = (none, s))
    ∨ (∃ g, getGame s id = some g ∧
        ((g.players.white = some pid ∧
            joinGame s id pid name now = (some (g, Color.w), s))
         ∨ (g.players.white ≠ some pid ∧ g.players.black = some pid ∧
            joinGame s id pid name now = (some (g, Color.b), s))
         ∨ (g.players.white ≠ some pid ∧ g.players.black ≠ some pid ∧
            strFalsy g.players.white ∧
            joinGame s id pid name now
              = (some (joinWhite g pid name, Color.w),
                 s.set id (applyUpdate g (joinWhite g pid name).asUpdate now)))
         ∨ (g.players.white ≠ some pid ∧ g.players.black ≠ some pid ∧
            ¬ strFalsy g.players.white ∧ strFalsy g.players.black ∧
            joinGame s id pid name now
              = (some (joinBlack g pid name, Color.b),
                 s.set id (applyUpdate g (joinBlack g pid name).asUpdate now)))
         ∨ (g.players.white ≠ some pid ∧ g.players.black ≠ some pid ∧
            ¬ strFalsy g.players.white ∧ ¬ strFalsy g.players.black ∧
            joinGame s id pid name now = (none, s)))) := by
  cases hg : getGame s id with
  | none => exact Or.inl ⟨rfl, by simp [joinGame, hg]⟩
  | some g =>
    refine Or.inr ⟨g, rfl, ?_⟩
    by_cases h1 : g.players.white = some pid
    · exact Or.inl ⟨h1, by simp [joinGame, hg, h1]⟩
    by_cases h2 : g.players.black = some pid
    · exact Or.inr (Or.inl ⟨h1, h2, by simp [joinGame, hg, h1, h2]⟩)
    by_cases h3 : strFalsy g.players.white
    · refine Or.inr (Or.inr (Or.inl ⟨h1, h2, h3, ?_⟩))
      simp only [joinGame, hg]
      rw [if_neg h1, if_neg h2, if_pos h3]
      simp [updateGame, hg, joinWhite]
    by_cases h4 : strFalsy g.players.black
    · refine Or.inr (Or.inr (Or.inr (Or.inl ⟨h1, h2, h3, h4, ?_⟩)))
      simp only [joinGame, hg]
      rw [if_neg h1, if_neg h2, if_neg h3, if_pos h4]
      simp [updateGame, hg, joinBlack]
    · refine Or.inr (Or.inr (Or.inr (Or.inr ⟨h1, h2, h3, h4, ?_⟩)))
      simp only [joinGame, hg]
      rw [if_neg h1, if_neg h2, if_neg h3, if_neg h4]

/-! ## Claim C1 -/

/-- C1 counterexample: `joinGame` answers the absent session `"g1"` of the
empty store and the full session `"g1"` of `fullStore` with the very same
`none` signal, and the route turns both into the single response
`'Game is full'` — the two rejections are not distinct observable
results. -/
theorem join_notfound_full_same_signal_cex :
    getGame Store.emp "g1" = none
    ∧ (joinGame Store.emp "g1" "p3" "Carol" 0).1 = none
    ∧ getGame fullStore "g1" = some fullSession
    ∧ fullSession.players.white = some "p1"
    ∧ fullSession.players.black = some "p2"
    ∧ (joinGame fullStore "g1" "p3" "Carol" 5).1 = none
    ∧ (routeJoin Store.emp "g1" "p3" "Carol" 0).1 = JoinResponse.gameFull
    ∧ (routeJoin fullStore "g1" "p3" "Carol" 5).1 = JoinResponse.gameFull := by
  decide

/-- C1 (amended): `joinGame` rejects an absent session and a session whose
two slots are occupied by other players with the same `none` result (store
untouched either way), and the join route surfaces both as the single
`'Game is full'` response: the two failure modes are conflated, not
distinct. -/
theorem join_notfound_full_conflated (s : Store) (id pid name : String) (now : Nat) :
    (getGame s id = none → joinGame s id pid name now = (none, s))
    ∧ (∀ g : GameState, getGame s id = some g →
        ¬ strFalsy g.players.white → ¬ strFalsy g.players.black →
        g.players.white ≠ some pid → g.players.black ≠ some pid →
        joinGame s id pid name now = (none, s))
    ∧ (usernameBlank name = false → getGame s id = none →
        (routeJoin s id pid name now).1 = JoinResponse.gameFull)
    ∧ (∀ g : GameState, usernameBlank name = false → getGame s id = some g →
        ¬ strFalsy g.players.white → ¬ strFalsy g.players.black →
        g.players.white ≠ some pid → g.players.black ≠ some pid →
        (routeJoin s id pid name now).1 = JoinResponse.gameFull) := by
  have habs : getGame s id = none → joinGame s id pid name now = (none, s) := by
    intro h
    simp [joinGame, h]
  have hfull : ∀ g : GameState, getGame s id = some g →
      ¬ strFalsy g.players.white → ¬ strFalsy g.players.black →
      g.players.white ≠ some pid → g.players.black ≠ some pid →
      joinGame s id pid name now = (none, s) := by
    intro g hg h1 h2 h3 h4
    simp only [joinGame, hg]
    rw [if_neg h3, if_neg h4, if_neg h1, if_neg h2]
  refine ⟨habs, hfull, ?_, ?_⟩
  · intro hn h
    simp only [routeJoin]
    rw [hn, if_neg (by simp), habs h]
  · intro g hn hg h1 h2 h3 h4
    simp only [routeJoin]
    rw [hn, if_neg (by simp), hfull g hg h1 h2 h3 h4]

/-- Witness for the amended C1 at the concrete full store. -/
theorem join_notfound_full_conflated_witness :
    joinGame fullStore "g1" "p3" "Carol" 5 = (none, fullStore)
    ∧ joinGame Store.emp "g1" "p3" "Carol" 0 = (none, Store.emp) :=
  ⟨(join_notfound_full_conflated fullStore "g1" "p3" "Carol" 5).2.1 fullSession
      (by decide) (by decide) (by decide) (by decide) (by decide),
   (join_notfound_full_conflated Store.emp "g1" "p3" "Carol" 0).1 (by decide)⟩

/-! ## Claim C7 -/

/-- C7: a rejoin by a player already holding a slot returns that slot's
colour with session and store untouched; a second join with the same
`(id, playerId)` yields the same colour again and leaves the store where
the first call left it; and a third player's join against a full session is
rejected with the store (hence every display name) unchanged. -/
theorem joinGame_idempotent (s : Store) (id pid name name2 : String) (now now2 : Nat)
    (g : GameState) :
    (getGame s id = some g → g.players.white = some pid →
      joinGame s id pid name now = (some (g, Color.w), s))
    ∧ (getGame s id = some g → g.players.white ≠ some pid →
        g.players.black = some pid →
      joinGame s id pid name now = (some (g, Color.b), s))
    ∧ (∀ g' c s', joinGame s id pid name now = (some (g', c), s') →
        ∃ g'', joinGame s' id pid name2 now2 = (some (g'', c), s'))
    ∧ (getGame s id = some g →
        ¬ strFalsy g.players.white → ¬ strFalsy g.players.black →
        g.players.white ≠ some pid → g.players.black ≠ some pid →
      joinGame s id pid name now = (none, s)) := by
  refine ⟨?_, ?_, ?_, ?_⟩
  · intro hg h1
    simp [joinGame, hg, h1]
  · intro hg h1 h2
    simp [joinGame, hg, h1, h2]
  · intro g' c s' h
    rcases joinGame_cases s id pid name now with ⟨hg, hj⟩ | ⟨g0, hg, hcase⟩
    · rw [hj] at h
      exact absurd (congrArg Prod.fst h) (by simp)
    rcases hcase with ⟨h1, hj⟩ | ⟨h1, h2, hj⟩ | ⟨h1, h2, h3, hj⟩ | ⟨h1, h2, h3, h4, hj⟩
      | ⟨h1, h2, h3, h4, hj⟩
    · rw [hj] at h
      simp only [Prod.mk.injEq, Option.some.injEq] at h
      obtain ⟨⟨rfl, rfl⟩, rfl⟩ := h
      exact ⟨g0, by simp [joinGame, hg, h1]⟩
    · rw [hj] at h
      simp only [Prod.mk.injEq, Option.some.injEq] at h
      obtain ⟨⟨rfl, rfl⟩, rfl⟩ := h
      exact ⟨g0, by simp [joinGame, hg, h1, h2]⟩
    · rw [hj] at h
      simp only [Prod.mk.injEq, Option.some.injEq] at h
      obtain ⟨⟨rfl, rfl⟩, rfl⟩ := h
      refine ⟨applyUpdate g0 (joinWhite g0 pid name).asUpdate now, ?_⟩
      have hg2 : getGame (s.set id (applyUpdate g0 (joinWhite g0 pid name).asUpdate now)) id
          = some (applyUpdate g0 (joinWhite g0 pid name).asUpdate now) :=
        store_set_self ..
      have hw : (applyUpdate g0 (joinWhite g0 pid name).asUpdate now).players.white
          = some pid := by
        simp [applyUpdate, GameState.asUpdate, joinWhite]
      simp [joinGame, hg2, hw]
    · rw [hj] at h
      simp only [Prod.mk.injEq, Option.some.injEq] at h
      obtain ⟨⟨rfl, rfl⟩, rfl⟩ := h
      refine ⟨applyUpdate g0 (joinBlack g0 pid name).asUpdate now, ?_⟩
      have hg2 : getGame (s.set id (applyUpdate g0 (joinBlack g0 pid name).asUpdate now)) id
          = some (applyUpdate g0 (joinBlack g0 pid name).asUpdate now) :=
        store_set_self ..
      have hw : (applyUpdate g0 (joinBlack g0 pid name).asUpdate now).players.white
          = g0.players.white := by
        simp [applyUpdate, GameState.asUpdate, joinBlack]
      have hb : (applyUpdate g0 (joinBlack g0 pid name).asUpdate now).players.black
          = some pid := by
        simp [applyUpdate, GameState.asUpdate, joinBlack]
      simp [joinGame, hg2, hw, hb, h1]
    · rw [hj] at h
      exact absurd (congrArg Prod.fst h) (by simp)
  · intro hg h1 h2 h3 h4
    simp only [joinGame, hg]
    rw [if_neg h3, if_neg h4, if_neg h1, if_neg h2]

/-- Witness for C7: rejoin of `"p1"` on the full session is a no-op
returning white. -/
theorem joinGame_idempotent_witness :
    joinGame fullStore "g1" "p1" "X" 9 = (some (fullSession, Color.w), fullStore) :=
  (joinGame_idempotent fullStore "g1" "p1" "X" "Y" 9 10 fullSession).1
    (by decide) (by decide)

/-! ## `submitMove` helper lemmas -/

theorem isValidMove_true_bounds {board : Board} {f t : Position} {turn : Color}
    (hwf : wfBoard board) (h : isValidMove board f t turn = some true) :
    (0 ≤ f.row ∧ f.row ≤ 7 ∧ 0 ≤ f.col ∧ f.col ≤ 7)
    ∧ (0 ≤ t.row ∧ t.row ≤ 7 ∧ 0 ≤ t.col ∧ t.col ≤ 7) := by
  rcases hq : squareRead board f.row f.col with _ | fp
  · have : isValidMove board f t turn = none := by simp [isValidMove, hq]
    rw [this] at h
    exact absurd h (by simp)
  · cases fp with
    | none =>
      rw [isValidMove_empty_from hq] at h
      exact absurd h (by simp)
    | some pc =>
      have hfb := squareRead_piece_bounds hwf hq
      by_cases hout : t.row < 0 ∨ 7 < t.row ∨ t.col < 0 ∨ 7 < t.col
      · rw [isValidMove_target_oob hq hout] at h
        exact absurd h (by simp)
      · exact ⟨hfb, by omega⟩

/-- The success path of the move branch: recognized player whose colour is
to move, legal move — the board is replaced by the `makeMove` result, the
turn flips, the stamped session is persisted and returned. -/
theorem submitMove_success (s : Store) (id pid : String) (fromP toP : Position) (now : Nat)
    (g : GameState) (hg : getGame s id = some g) (hwf : wfBoard g.board)
    (hres : resolvePlayer g pid = some g.turn)
    (hvalid : isValidMove g.board fromP toP g.turn = some true) :
    ∃ b', makeMove g.board fromP toP = some b'
      ∧ submitMove s id pid fromP toP now
          = (MoveResponse.moved (some { g with
                board := b',
                turn := (if g.turn = Color.w then Color.b else Color.w),
                lastMove := now }),
             s.set id { g with
                board := b',
                turn := (if g.turn = Color.w then Color.b else Color.w),
                lastMove := now }) := by
  obtain ⟨hfb, htb⟩ := isValidMove_true_bounds hwf hvalid
  obtain ⟨b', piece, -, hmk, -, -, -⟩ := makeMove_spec g.board fromP toP hwf hfb htb
  refine ⟨b', hmk, ?_⟩
  have hcond : ¬(resolvePlayer g pid = none ∨ resolvePlayer g pid ≠ some g.turn) := by
    simp [hres]
  simp only [submitMove, hg]
  rw [if_neg hcond]
  simp only [hvalid, hmk, updateGame, hg]
  rfl

/-! ## Claim C2 -/

/-- C2: the move branch arbitrates in exactly this order for a stored
session: a player resolving to no slot, or to the colour not on turn, is
rejected "not your turn" with the store untouched; a resolved in-turn
player whose move fails `isValidMove` is rejected "invalid move" with the
store untouched; otherwise `makeMove` is applied, the turn flips, and the
restamped session is persisted and returned. -/
theorem submitMove_arbitration (s : Store) (id pid : String) (fromP toP : Position)
    (now : Nat) (g : GameState)
    (hg : getGame s id = some g) (hwf : wfBoard g.board) :
    ((resolvePlayer g pid = none ∨ resolvePlayer g pid ≠ some g.turn) →
      submitMove s id pid fromP toP now = (MoveResponse.notYourTurn, s))
    ∧ (resolvePlayer g pid = some g.turn →
        isValidMove g.board fromP toP g.turn = some false →
      submitMove s id pid fromP toP now = (MoveResponse.invalidMove, s))
    ∧ (resolvePlayer g pid = some g.turn →
        isValidMove g.board fromP toP g.turn = some true →
      ∃ b', makeMove g.board fromP toP = some b'
        ∧ submitMove s id pid fromP toP now
            = (MoveResponse.moved (some { g with
                  board := b',
                  turn := (if g.turn = Color.w then Color.b else Color.w),
                  lastMove := now }),
               s.set id { g with
                  board := b',
                  turn := (if g.turn = Color.w then Color.b else Color.w),
                  lastMove := now })) := by
  refine ⟨?_, ?_, fun h1 h2 => submitMove_success s id pid fromP toP now g hg hwf h1 h2⟩
  · intro h
    simp only [submitMove, hg]
    rw [if_pos h]
  · intro h1 h2
    simp only [submitMove, hg]
    rw [if_neg (by simp [h1])]
    simp only [h2]

/-- Witness for C2: white's opening pawn move on the joined session. -/
theorem submitMove_arbitration_witness :
    ∃ b', makeMove gameJ1.board ⟨6, 4⟩ ⟨4, 4⟩ = some b'
      ∧ submitMove storeJ1 "g1" "p1" ⟨6, 4⟩ ⟨4, 4⟩ 3
          = (MoveResponse.moved (some { gameJ1 with
                board := b',
                turn := (if gameJ1.turn = Color.w then Color.b else Color.w),
                lastMove := 3 }),
             storeJ1.set "g1" { gameJ1 with
                board := b',
                turn := (if gameJ1.turn = Color.w then Color.b else Color.w),
                lastMove := 3 }) :=
  (submitMove_arbitration storeJ1 "g1" "p1" ⟨6, 4⟩ ⟨4, 4⟩ 3 gameJ1
      (by decide) (by decide)).2.2 (by decide) (by decide)

/-! ## Claim C10 -/

/-- C10: the move branch never inspects `status`: in a still-`waiting`
session whose white slot holds the mover and whose turn is white, a legal
move succeeds — the board is updated and the turn flips — even though the
second player has not joined; the session stays `waiting`. -/
theorem submitMove_ignores_status (s : Store) (id pid : String) (fromP toP : Position)
    (now : Nat) (g : GameState)
    (hg : getGame s id = some g) (hwf : wfBoard g.board)
    (hstatus : g.status = Status.waiting)
    (hwhite : g.players.white = some pid) (hturn : g.turn = Color.w)
    (hvalid : isValidMove g.board fromP toP Color.w = some true) :
    ∃ b', makeMove g.board fromP toP = some b'
      ∧ submitMove s id pid fromP toP now
          = (MoveResponse.moved (some { g with
                board := b', turn := Color.b, lastMove := now }),
             s.set id { g with board := b', turn := Color.b, lastMove := now })
      ∧ ({ g with board := b', turn := Color.b, lastMove := now }).status
          = Status.waiting := by
  have hres : resolvePlayer g pid = some g.turn := by
    rw [hturn]
    simp [resolvePlayer, hwhite]
  have hvalid2 : isValidMove g.board fromP toP g.turn = some true := by
    rw [hturn]
    exact hvalid
  obtain ⟨b', hmk, hsm⟩ := submitMove_success s id pid fromP toP now g hg hwf hres hvalid2
  have hflip : (if g.turn = Color.w then Color.b else Color.w) = Color.b := by
    rw [hturn]
    simp
  rw [hflip] at hsm
  exact ⟨b', hmk, hsm, by simp [hstatus]⟩

/-- Witness for C10: the opening move on the half-joined (`waiting`)
session `storeJ1` succeeds. -/
theorem submitMove_ignores_status_witness :
    ∃ b', makeMove gameJ1.board ⟨6, 4⟩ ⟨4, 4⟩ = some b'
      ∧ submitMove storeJ1 "g1" "p1" ⟨6, 4⟩ ⟨4, 4⟩ 3
          = (MoveResponse.moved (some { gameJ1 with
                board := b', turn := Color.b, lastMove := 3 }),
             storeJ1.set "g1" { gameJ1 with board := b', turn := Color.b, lastMove := 3 })
      ∧ ({ gameJ1 with board := b', turn := Color.b, lastMove := 3 }).status
          = Status.waiting :=
  submitMove_ignores_status storeJ1 "g1" "p1" ⟨6, 4⟩ ⟨4, 4⟩ 3 gameJ1
    (by decide) (by decide) (by decide) (by decide) (by decide) (by decide)

/-! ## Claim C9 -/

theorem pawnDiag_isSome (target : Piece) (a b c : Int) :
    ∃ r : Bool, pawnDiag target a b c = some r := by
  unfold pawnDiag
  split
  · exact ⟨true, rfl⟩
  · exact ⟨false, rfl⟩

/-- For a from square on the grid of an 8×8 board, `isValidMove` always
returns a boolean, never faults. -/
theorem isValidMove_total (board : Board) (f t : Position) (turn : Color)
    (hwf : wfBoard board)
    (hf : 0 ≤ f.row ∧ f.row ≤ 7 ∧ 0 ≤ f.col ∧ f.col ≤ 7) :
    ∃ r : Bool, isValidMove board f t turn = some r := by
  obtain ⟨fp, hfp⟩ := squareRead_isSome hwf f.col hf.1 hf.2.1
  cases fp with
  | none => exact ⟨false, isValidMove_empty_from hfp⟩
  | some pc =>
    by_cases hcol : pc.color = turn
    case neg => exact ⟨false, isValidMove_wrong_color hfp hcol⟩
    subst hcol
    by_cases hout : t.row < 0 ∨ 7 < t.row ∨ t.col < 0 ∨ 7 < t.col
    · exact ⟨false, isValidMove_target_oob hfp hout⟩
    obtain ⟨target, htar⟩ :=
      squareRead_isSome hwf t.col (show (0 : Int) ≤ t.row by omega) (by omega)
    by_cases hscP : ∃ q : ChessPiece, target = some q ∧ q.color = pc.color
    · obtain ⟨q, rfl, hqc⟩ := hscP
      exact ⟨false, isValidMove_self_capture hwf hfp htar hqc⟩
    have hsc : (target.any fun q => q.color = pc.color) = false := by
      cases target with
      | none => rfl
      | some q =>
        show decide (q.color = pc.color) = false
        exact decide_eq_false fun h => hscP ⟨q, rfl, h⟩
    have hteqf : ¬(t.row = f.row ∧ t.col = f.col) := by
      rintro ⟨h1, h2⟩
      rw [h1, h2] at htar
      have : target = some pc := by
        have := htar.symm.trans hfp
        injection this
      exact hscP ⟨pc, this, rfl⟩
    have htb : 0 ≤ t.row ∧ t.row ≤ 7 ∧ 0 ≤ t.col ∧ t.col ≤ 7 := by omega
    cases htp : pc.type with
    | p =>
      rw [isValidMove_pawn_branch hfp hout htar hsc htp]
      by_cases h1 : t.col - f.col = 0 ∧ target = none
      · rw [if_pos h1]
        by_cases h2 : t.row - f.row = (if pc.color = Color.w then -1 else 1)
        · rw [if_pos h2]
          exact ⟨true, rfl⟩
        · rw [if_neg h2]
          by_cases h3 : f.row = (if pc.color = Color.w then 6 else 1)
              ∧ t.row - f.row = 2 * (if pc.color = Color.w then -1 else 1)
          · rw [if_pos h3]
            have hmb : 0 ≤ f.row + (if pc.color = Color.w then -1 else 1)
                ∧ f.row + (if pc.color = Color.w then -1 else 1) ≤ 7 := by
              obtain ⟨hh, -⟩ := h3
              by_cases hw : pc.color = Color.w <;> simp [hw] at hh ⊢ <;> omega
            obtain ⟨mid, hmid⟩ := squareRead_isSome hwf f.col hmb.1 hmb.2
            rw [hmid]
            cases mid with
            | none => exact ⟨true, rfl⟩
            | some m => exact pawnDiag_isSome ..
          · rw [if_neg h3]
            exact pawnDiag_isSome ..
      · rw [if_neg h1]
        exact pawnDiag_isSome ..
    | r =>
      rw [isValidMove_rook_branch hfp hout htar hsc htp]
      by_cases hcond : t.row - f.row = 0 ∨ t.col - f.col = 0
      · rw [if_pos hcond,
          slider_core board f t hwf hf htb (Or.imp_right Or.inl hcond) hteqf]
        exact ⟨_, rfl⟩
      · rw [if_neg hcond]
        exact ⟨false, rfl⟩
    | n =>
      rw [isValidMove_knight_branch hfp hout htar hsc htp]
      split
      · exact ⟨true, rfl⟩
      · exact ⟨false, rfl⟩
    | b =>
      rw [isValidMove_bishop_branch hfp hout htar hsc htp]
      by_cases hcond : (t.row - f.row).natAbs = (t.col - f.col).natAbs
      · rw [if_pos hcond,
          slider_core board f t hwf hf htb (Or.inr (Or.inr hcond)) hteqf]
        exact ⟨_, rfl⟩
      · rw [if_neg hcond]
        exact ⟨false, rfl⟩
    | q =>
      rw [isValidMove_queen_branch hfp hout htar hsc htp]
      by_cases hcond : t.row - f.row = 0 ∨ t.col - f.col = 0
          ∨ (t.row - f.row).natAbs = (t.col - f.col).natAbs
      · rw [if_pos hcond, slider_core board f t hwf hf htb hcond hteqf]
        exact ⟨_, rfl⟩
      · rw [if_neg hcond]
        exact ⟨false, rfl⟩
    | k =>
      rw [isValidMove_king_branch hfp hout htar hsc htp]
      split
      · exact ⟨true, rfl⟩
      · exact ⟨false, rfl⟩

/-- C9 counterexample: `{3,9}` lies outside [0,7]×[0,7], yet `isValidMove`
returns `false` there rather than faulting — row 3 is a defined row, and
the undefined column read is merely falsy. -/
theorem from_out_of_range_false_cex :
    ¬ inRange ⟨3, 9⟩
    ∧ isValidMove emptyBoard ⟨3, 9⟩ ⟨0, 0⟩ Color.w = some false := by
  decide

/-- C9 (amended): `isValidMove` bounds-checks only the destination.  On an
8×8 board it is total for any from square of the grid; for `from.row`
outside [0,7] the `board[from.row][from.col]` lookup faults on an undefined
row; for `from.row` in range but `from.col` outside, the undefined lookup
is falsy and the move is merely reported invalid; and the unvalidated fault
is reachable through the public move endpoint. -/
theorem from_bounds_check_asymmetry (board : Board) (f : Position)
    (hwf : wfBoard board) :
    ((0 ≤ f.row ∧ f.row ≤ 7 ∧ 0 ≤ f.col ∧ f.col ≤ 7) →
      ∀ (t : Position) (turn : Color), ∃ r : Bool, isValidMove board f t turn = some r)
    ∧ ((f.row < 0 ∨ 7 < f.row) →
      ∀ (t : Position) (turn : Color), isValidMove board f t turn = none)
    ∧ ((0 ≤ f.row ∧ f.row ≤ 7) → (f.col < 0 ∨ 7 < f.col) →
      ∀ (t : Position) (turn : Color), isValidMove board f t turn = some false)
    ∧ (submitMove storeJ1 "g1" "p1" ⟨-1, 0⟩ ⟨0, 0⟩ 3).1 = MoveResponse.fault := by
  have hlen : (board.length : Int) = 8 := by exact_mod_cast hwf.1
  refine ⟨fun hfin t turn => isValidMove_total board f t turn hwf hfin, ?_, ?_, by decide⟩
  · intro hr t turn
    have hnone : jsGet board f.row = none := jsGet_none (by omega)
    simp [isValidMove, squareRead_fault hnone]
  · intro hr hc t turn
    obtain ⟨rowL, hrow, hget⟩ :=
      jsGet_of_lt hr.1 (show f.row < (board.length : Int) by omega)
    have hrl : (rowL.length : Int) = 8 := by
      exact_mod_cast hwf.2 _ (List.get?_mem hget)
    have hcnone : jsGet rowL f.col = none := jsGet_none (by omega)
    have hsr : squareRead board f.row f.col = some none := by
      simp [squareRead, hrow, hcnone]
    exact isValidMove_empty_from hsr

/-- Witness for the amended C9 at concrete inputs. -/
theorem from_bounds_check_asymmetry_witness :
    (∃ r : Bool, isValidMove emptyBoard ⟨0, 0⟩ ⟨5, 5⟩ Color.w = some r)
    ∧ isValidMove emptyBoard ⟨-1, 0⟩ ⟨0, 0⟩ Color.w = none
    ∧ isValidMove emptyBoard ⟨3, 9⟩ ⟨0, 0⟩ Color.w = some false
    ∧ (submitMove storeJ1 "g1" "p1" ⟨-1, 0⟩ ⟨0, 0⟩ 3).1 = MoveResponse.fault :=
  ⟨(from_bounds_check_asymmetry emptyBoard ⟨0, 0⟩ (by decide)).1 (by decide) ⟨5, 5⟩ Color.w,
   (from_bounds_check_asymmetry emptyBoard ⟨-1, 0⟩ (by decide)).2.1 (by decide) ⟨0, 0⟩ Color.w,
   (from_bounds_check_asymmetry emptyBoard ⟨3, 9⟩ (by decide)).2.2.1 (by decide) (by decide)
     ⟨0, 0⟩ Color.w,
   (from_bounds_check_asymmetry emptyBoard ⟨0, 0⟩ (by decide)).2.2.2⟩

/-! ## Claim C6 -/

/-- C6 counterexample: with `from = to = {0,0}` on the initial board the
result's destination square is empty instead of holding the piece the
source square held (the black rook), so the claim fails for the degenerate
pair of equal squares. -/
theorem makeMove_self_move_cex :
    (makeMove initialBoard ⟨0, 0⟩ ⟨0, 0⟩).bind (fun b => squareRead b 0 0)
        = some (none : Piece)
    ∧ squareRead initialBoard 0 0 = some (some ⟨PieceType.r, Color.b⟩)
    ∧ some (none : Piece) ≠ some (some (⟨PieceType.r, Color.b⟩ : ChessPiece)) := by
  decide

/-- C6 (amended): for every 8×8 board and every pair of distinct in-range
squares, `makeMove` succeeds deterministically; the destination of the
result holds exactly what the source held, the source becomes empty, every
other square is unchanged, and two applications to the same inputs are
identical. -/
theorem makeMove_frame (board : Board) (f t : Position)
    (hwf : wfBoard board)
    (hf : 0 ≤ f.row ∧ f.row ≤ 7 ∧ 0 ≤ f.col ∧ f.col ≤ 7)
    (ht : 0 ≤ t.row ∧ t.row ≤ 7 ∧ 0 ≤ t.col ∧ t.col ≤ 7)
    (hne : ¬(t.row = f.row ∧ t.col = f.col)) :
    ∃ b' piece, squareRead board f.row f.col = some piece
      ∧ makeMove board f t = some b'
      ∧ squareRead b' t.row t.col = some piece
      ∧ squareRead b' f.row f.col = some none
      ∧ (∀ r c : Int, ¬(r = f.row ∧ c = f.col) → ¬(r = t.row ∧ c = t.col) →
          squareRead b' r c = squareRead board r c)
      ∧ makeMove board f t = makeMove board f t := by
  obtain ⟨b', piece, h1, h2, h3, h4, h5⟩ := makeMove_spec board f t hwf hf ht
  exact ⟨b', piece, h1, h2, h4 hne, h3, h5, rfl⟩

/-- Witness for the amended C6: the white e-pawn two-square advance on the
initial board. -/
theorem makeMove_frame_witness :
    ∃ b' piece, squareRead initialBoard 6 4 = some piece
      ∧ makeMove initialBoard ⟨6, 4⟩ ⟨4, 4⟩ = some b'
      ∧ squareRead b' 4 4 = some piece
      ∧ squareRead b' 6 4 = some none
      ∧ (∀ r c : Int, ¬(r = 6 ∧ c = 4) → ¬(r = 4 ∧ c = 4) →
          squareRead b' r c = squareRead initialBoard r c)
      ∧ makeMove initialBoard ⟨6, 4⟩ ⟨4, 4⟩ = makeMove initialBoard ⟨6, 4⟩ ⟨4, 4⟩ :=
  makeMove_frame initialBoard ⟨6, 4⟩ ⟨4, 4⟩ (by decide) (by decide) (by decide) (by decide)

/-- Witness for C4: the characterization applied to the white e-pawn's
double advance on the initial board. -/
theorem pawn_moves_characterized_witness :
    (isValidMove initialBoard ⟨6, 4⟩ ⟨4, 4⟩ Color.w = some true ↔
        pawnMoveSpec initialBoard ⟨6, 4⟩ ⟨4, 4⟩ Color.w)
    ∧ getValidMoves initialBoard ⟨6, 4⟩ Color.w = some [⟨4, 4⟩, ⟨5, 4⟩]
    ∧ getValidMoves initialBoard ⟨1, 3⟩ Color.b = some [⟨2, 3⟩, ⟨3, 3⟩] :=
  pawn_moves_characterized initialBoard ⟨6, 4⟩ ⟨4, 4⟩ Color.w ⟨PieceType.p, Color.w⟩
    (by decide) (by decide) rfl rfl (by decide)

/-- Witness for C5: the blocked rook of scenario F, with the occupied
square `{7,3}` exhibited strictly between the endpoints. -/
theorem slider_blocked_path_witness :
    ((∃ p ∈ betweenList ⟨7, 0⟩ ⟨7, 5⟩, ∃ q : ChessPiece,
        squareRead rookBlockedBoard p.row p.col = some (some q)) →
      isValidMove rookBlockedBoard ⟨7, 0⟩ ⟨7, 5⟩ Color.w = some false)
    ∧ isValidMove rookBlockedBoard ⟨7, 0⟩ ⟨7, 5⟩ Color.w = some false :=
  have h := slider_blocked_path rookBlockedBoard ⟨7, 0⟩ ⟨7, 5⟩ Color.w
    ⟨PieceType.r, Color.w⟩ (by decide) (by decide) (Or.inl rfl) rfl (by decide)
  ⟨h.2.1, h.2.1 ⟨⟨7, 3⟩, by decide, ⟨PieceType.p, Color.b⟩, by decide⟩⟩

/-! ## Claim C8 -/

theorem applyUpdate_asUpdate (g0 g : GameState) (now : Nat) :
    applyUpdate g0 g.asUpdate now = { g with lastMove := now } := rfl

/-- The store a move leaves behind: either untouched, or the stored session
with only board, turn and timestamp replaced. -/
theorem submitMove_store (s : Store) (id pid : String) (f t : Position) (now : Nat) :
    (submitMove s id pid f t now).2 = s
    ∨ ∃ g b', getGame s id = some g
        ∧ (submitMove s id pid f t now).2
            = s.set id { g with
                board := b',
                turn := (if g.turn = Color.w then Color.b else Color.w),
                lastMove := now } := by
  cases hg : getGame s id with
  | none =>
    left
    simp [submitMove, hg]
  | some g =>
    by_cases h1 : resolvePlayer g pid = none ∨ resolvePlayer g pid ≠ some g.turn
    · left
      simp only [submitMove, hg]
      rw [if_pos h1]
    · cases hv : isValidMove g.board f t g.turn with
      | none =>
        left
        simp only [submitMove, hg]
        rw [if_neg h1]
        simp only [hv]
      | some b =>
        cases b with
        | false =>
          left
          simp only [submitMove, hg]
          rw [if_neg h1]
          simp only [hv]
        | true =>
          cases hmk : makeMove g.board f t with
          | none =>
            left
            simp only [submitMove, hg]
            rw [if_neg h1]
            simp only [hv, hmk]
          | some b' =>
            right
            refine ⟨g, b', rfl, ?_⟩
            simp only [submitMove, hg]
            rw [if_neg h1]
            simp only [hv, hmk, updateGame, hg]
            rfl

/-- Every reachable store satisfies the session invariant: winner unset,
never `finished`, and an unset white slot implies `waiting`. -/
theorem reachable_inv (s : Store) (hs : Reachable s) : StoreInv s := by
  induction hs with
  | emp =>
    intro id g h
    exact absurd h (by simp [Store.emp])
  | create s id now hr ih =>
    intro id' g' h
    have h2 : (s.set id (createGame s id now).1) id' = some g' := h
    rcases store_set_lookup h2 with ⟨-, rfl⟩ | ⟨-, hfound⟩
    · exact ⟨rfl, fun h2 => Status.noConfusion h2, fun _ => rfl⟩
    · exact ih id' g' hfound
  | join s id pid name now hr ih =>
    intro id' g' h
    rcases joinGame_cases s id pid name now with ⟨hg, hj⟩ | ⟨g0, hg, hcase⟩
    · rw [hj] at h
      exact ih id' g' h
    rcases hcase with ⟨h1, hj⟩ | ⟨h1, h2, hj⟩ | ⟨h1, h2, h3, hj⟩ | ⟨h1, h2, h3, h4, hj⟩
      | ⟨h1, h2, h3, h4, hj⟩
    · rw [hj] at h
      exact ih id' g' h
    · rw [hj] at h
      exact ih id' g' h
    · rw [hj] at h
      rcases store_set_lookup h with ⟨-, rfl⟩ | ⟨-, hf⟩
      · have hinv := ih id g0 hg
        rw [applyUpdate_asUpdate]
        exact ⟨hinv.1, hinv.2.1, fun _ => hinv.2.2 h3⟩
      · exact ih id' g' hf
    · rw [hj] at h
      rcases store_set_lookup h with ⟨-, rfl⟩ | ⟨-, hf⟩
      · have hinv := ih id g0 hg
        rw [applyUpdate_asUpdate]
        exact ⟨hinv.1, fun h5 => Status.noConfusion h5, fun hfal => absurd hfal h3⟩
      · exact ih id' g' hf
    · rw [hj] at h
      exact ih id' g' h
  | move s id pid f t now hr ih =>
    intro id' g' h
    rcases submitMove_store s id pid f t now with hst | ⟨g0, b', hg, hst⟩
    · rw [hst] at h
      exact ih id' g' h
    · rw [hst] at h
      rcases store_set_lookup h with ⟨-, rfl⟩ | ⟨-, hf⟩
      · have hinv := ih id g0 hg
        exact ⟨hinv.1, hinv.2.1, fun hf2 => hinv.2.2 hf2⟩
      · exact ih id' g' hf

/-- C8: the session state machine.  Creation yields `waiting`, the initial
board, white to move, empty slots and no winner; on a reachable store the
first join fills the white slot and leaves the session `waiting`; the
second, distinct-player join fills the black slot and activates the
session; and every session of a reachable store is `waiting` or `active`
with winner unset — no core operation ever produces `finished` or a
winner. -/
theorem session_state_machine (s : Store) (hs : Reachable s) (id pid pid2 name : String)
    (now : Nat) (g : GameState) :
    ((createGame s id now).1.status = Status.waiting
      ∧ (createGame s id now).1.board = initialBoard
      ∧ (createGame s id now).1.turn = Color.w
      ∧ (createGame s id now).1.players = ⟨none, none⟩
      ∧ (createGame s id now).1.playerNames = ⟨none, none⟩
      ∧ (createGame s id now).1.winner = none)
    ∧ (getGame s id = some g → g.players.white = none → g.players.black ≠ some pid →
        joinGame s id pid name now
          = (some (joinWhite g pid name, Color.w),
             s.set id (applyUpdate g (joinWhite g pid name).asUpdate now))
        ∧ (joinWhite g pid name).players.white = some pid
        ∧ (joinWhite g pid name).status = Status.waiting)
    ∧ (getGame s id = some g → g.players.white = some pid2 → pid2 ≠ "" → pid2 ≠ pid →
        g.players.black = none →
        joinGame s id pid name now
          = (some (joinBlack g pid name, Color.b),
             s.set id (applyUpdate g (joinBlack g pid name).asUpdate now))
        ∧ (joinBlack g pid name).players.black = some pid
        ∧ (joinBlack g pid name).status = Status.active)
    ∧ (∀ id' g', getGame s id' = some g' →
        (g'.status = Status.waiting ∨ g'.status = Status.active) ∧ g'.winner = none) := by
  refine ⟨⟨rfl, rfl, rfl, rfl, rfl, rfl⟩, ?_, ?_, ?_⟩
  · intro hg hw hb
    have hw1 : ¬ g.players.white = some pid := by simp [hw]
    refine ⟨?_, by simp [joinWhite], ?_⟩
    · simp only [joinGame, hg]
      rw [if_neg hw1, if_neg hb, if_pos (show strFalsy g.players.white from Or.inl hw)]
      simp [updateGame, hg, joinWhite]
    · have hinv := reachable_inv s hs id g hg
      have hst : g.status = Status.waiting := hinv.2.2 (Or.inl hw)
      simpa [joinWhite] using hst
  · intro hg hw2 hne2 hnep hb
    have hw1 : ¬ g.players.white = some pid := by simp [hw2, hnep]
    have hb1 : ¬ g.players.black = some pid := by simp [hb]
    have hwf1 : ¬ strFalsy g.players.white := by
      simp [strFalsy, hw2, hne2]
    refine ⟨?_, by simp [joinBlack], by simp [joinBlack]⟩
    simp only [joinGame, hg]
    rw [if_neg hw1, if_neg hb1, if_neg hwf1, if_pos (show strFalsy g.players.black from Or.inl hb)]
    simp [updateGame, hg, joinBlack]
  · intro id' g' hgg
    have hinv := reachable_inv s hs id' g' hgg
    refine ⟨?_, hinv.1⟩
    cases hst : g'.status with
    | waiting => exact Or.inl rfl
    | active => exact Or.inr rfl
    | finished => exact absurd hst hinv.2.1

/-- Witness for C8: creation props on a reachable store, second join on the
half-joined store, and the invariant at the stored session. -/
theorem session_state_machine_witness :
    ((createGame storeC "g2" 5).1.status = Status.waiting
      ∧ (createGame storeC "g2" 5).1.board = initialBoard
      ∧ (createGame storeC "g2" 5).1.turn = Color.w
      ∧ (createGame storeC "g2" 5).1.players = ⟨none, none⟩
      ∧ (createGame storeC "g2" 5).1.playerNames = ⟨none, none⟩
      ∧ (createGame storeC "g2" 5).1.winner = none)
    ∧ (joinGame storeJ1 "g1" "p2" "Bob" 2
        = (some (joinBlack gameJ1 "p2" "Bob", Color.b),
           storeJ1.set "g1" (applyUpdate gameJ1 (joinBlack gameJ1 "p2" "Bob").asUpdate 2))
       ∧ (joinBlack gameJ1 "p2" "Bob").players.black = some "p2"
       ∧ (joinBlack gameJ1 "p2" "Bob").status = Status.active)
    ∧ ((gameJ1.status = Status.waiting ∨ gameJ1.status = Status.active)
        ∧ gameJ1.winner = none) :=
  have hsC : Reachable storeC := Reachable.create Store.emp "g1" 0 Reachable.emp
  have hsJ1 : Reachable storeJ1 := Reachable.join storeC "g1" "p1" "Alice" 1 hsC
  ⟨(session_state_machine storeC hsC "g2" "p" "q" "A" 5 gameC).1,
   (session_state_machine storeJ1 hsJ1 "g1" "p2" "p1" "Bob" 2 gameJ1).2.2.1
     (by decide) (by decide) (by decide) (by decide) (by decide),
   (session_state_machine storeJ1 hsJ1 "g1" "p2" "p1" "Bob" 2 gameJ1).2.2.2 "g1" gameJ1
     (by decide)⟩

end CF
